import Mathlib

/-!
Verification development for the AWS function compiler of the
open-serverless repository, file
src/lib/plugins/aws/package/compile/functions.js (class AwsCompileFunctions).

The JavaScript code is shallowly embedded: every configuration object is a
Lean structure, the shared CloudFormation template is an explicit state value
threaded through the compilation phases, JavaScript truthiness on the fields
the code tests is modelled by small helper functions, and asynchronous code
is modelled by splitting compileFunction at its first await point (see the
definitions compileFunctionSync and compileFunctionCont below).

The SHA-256 accumulator (crypto.createHash) is modelled injectively: the
digest of a function version is taken to be the list of byte chunks written
to the hash, since the real digest is a fixed deterministic function of that
stream.  External collaborators that live outside the embedded source file
(artifact naming, logical-id naming, the per-file content hash, image
resolution) are modelled from the spec at their interface boundary and are
marked as such in their doc comments.
-/

namespace OpenServerless

/-- Stable machine-readable error codes thrown by the compiler (the second
argument of the ServerlessError constructor in the source). -/
inductive ErrCode
  | neitherHandlerNorImage
  | bothHandlerAndImage
  | fileSystemConfigMissingVpc
  | provisionedConcurrencySnapStartConflict
  | unsupportedDestinationTarget
  | missingFile
  | functionNotFound
  | missingIamRole
  | imageUnresolved
  deriving DecidableEq

/-- An error: the stable code plus the name of the offending function or
target (the part of the human-readable message that identifies the subject). -/
structure Err where
  code : ErrCode
  info : String
  deriving DecidableEq

/-- JavaScript truthiness of an optional number: undefined and 0 are falsy. -/
def natTruthy : Option Nat → Option Nat
  | some 0 => none
  | some (n + 1) => some (n + 1)
  | none => none

/-- JavaScript truthiness of an optional string: undefined and the empty
string are falsy. -/
def strTruthy : Option String → Option String
  | some s => if s = "" then none else some s
  | none => none

/-- JavaScript truthiness of an optional integer (used for
reservedConcurrency): undefined and 0 are falsy. -/
def intTruthy : Option Int → Bool
  | some v => v ≠ 0
  | none => false

/-- Model of the lodash uniq function: keeps the first occurrence of every
element, in order. -/
def jsUniqAux (seen : List String) : List String → List String
  | [] => []
  | x :: xs => if x ∈ seen then jsUniqAux seen xs else x :: jsUniqAux (x :: seen) xs

def jsUniq (l : List String) : List String := jsUniqAux [] l

/-- Assignment of a key in a JavaScript object: an existing key keeps its
position and gets the new value, a new key is appended at the end (object
keys are unique, so updating the first occurrence is the JavaScript
behavior). -/
def jsObjSet {β : Type} : List (String × β) → String → β → List (String × β)
  | [], k, v => [(k, v)]
  | p :: ps, k, v => if p.1 = k then (k, v) :: ps else p :: jsObjSet ps k v

/-- Model of Object.assign over two string maps: keys of the first argument
keep their position (with values overridden by the second argument), then the
keys only present in the second argument follow in order. -/
def jsAssign (a b : List (String × String)) : List (String × String) :=
  a.map (fun p => (p.1, ((b.lookup p.1).getD p.2))) ++
    b.filter (fun p => (a.lookup p.1).isNone)

/-- Model of the JavaScript String.prototype.includes check used on
destination ARN strings: structural substring search over the character
lists. -/
def charsContain (pat : List Char) : List Char → Bool
  | [] => List.isPrefixOf pat []
  | c :: cs => List.isPrefixOf pat (c :: cs) || charsContain pat cs

def containsSubstr (s pat : String) : Bool := charsContain pat.data s.data

/-- String.prototype.startsWith over the character lists. -/
def strStartsWith (s pat : String) : Bool := List.isPrefixOf pat.data s.data

/-- Insertion into a lexicographically sorted list of strings (model of the
default Array.prototype.sort comparison on the ASCII strings involved). -/
def insertSorted (x : String) : List String → List String
  | [] => [x]
  | y :: ys => if x ≤ y then x :: y :: ys else y :: insertSorted x ys

def sortStrings (l : List String) : List String := l.foldr insertSorted []

/-- Insertion sort of an association list by its string key (model of the
localeCompare based key sort of the legacy hashing mode, on ASCII keys). -/
def insertSortedBy {β : Type} (x : String × β) : List (String × β) → List (String × β)
  | [] => [x]
  | y :: ys => if x.1 ≤ y.1 then x :: y :: ys else y :: insertSortedBy x ys

def sortByKey {β : Type} (l : List (String × β)) : List (String × β) :=
  l.foldr insertSortedBy []

/-- Model of lodash fromPairs: builds an object from pairs, a repeated key
keeps its first position and last value. -/
def fromPairs {β : Type} (l : List (String × β)) : List (String × β) :=
  l.foldl (fun m p => jsObjSet m p.1 p.2) []

/-- Last path segment of a slash separated path
(artifactFilePath.split(path.sep).pop() in the source). -/
def pathBaseName (p : String) : String :=
  ⟨p.data.foldl (fun acc c => if c = '/' then [] else acc ++ [c]) []⟩

/- ### Configuration data model -/

/-- The role setting accepted by compileRole: a plain string, an Fn::GetAtt
object, or another reference object (Fn::ImportValue or Fn::Sub). -/
inductive RoleSetting
  | str (s : String)
  | getAtt (logicalId : String)
  | otherRef (s : String)
  deriving DecidableEq

/-- The Role property written on the compute resource. -/
inductive RoleProp
  | arnLit (s : String)
  | getAttArn (logicalId : String)
  | otherRef (s : String)
  deriving DecidableEq

/-- An ARN-like value that is either a plain string or a structured
reference object (the onError and kmsKeyArn settings accept both; the
permission statement is appended only in the string case). -/
inductive ArnLike
  | astr (s : String)
  | aref (s : String)
  deriving DecidableEq

/-- The tracing setting: a boolean or a mode string. -/
inductive TracingSetting
  | tbool (b : Bool)
  | tstr (s : String)
  deriving DecidableEq

/-- JavaScript truthiness of a tracing setting: false and the empty string
are falsy. -/
def tracingTruthy : Option TracingSetting → Option TracingSetting
  | some (.tbool true) => some (.tbool true)
  | some (.tstr s) => if s = "" then none else some (.tstr s)
  | _ => none

/-- A VPC configuration object (function or provider level). -/
structure VpcCfg where
  ipv6AllowedForDualStack : Option Bool
  securityGroupIds : Option (List String)
  subnetIds : Option (List String)
  deriving DecidableEq

/-- The function level vpc property: absent, explicitly null, explicitly
false, or a configuration object. -/
inductive VpcSetting
  | unset
  | vnull
  | vfalse
  | cfg (c : VpcCfg)
  deriving DecidableEq

/-- The VpcConfig property written on the compute resource (present only
when both id lists resolved). -/
structure VpcProps where
  Ipv6AllowedForDualStack : Option Bool
  SecurityGroupIds : List String
  SubnetIds : List String
  deriving DecidableEq

/-- A layer reference: a Ref object pointing at a layer resource of the same
template, or a plain ARN string. -/
inductive LayerRef
  | ref (logicalId : String)
  | arn (s : String)
  deriving DecidableEq

/-- The object form of the image setting. -/
structure ImageObjectCfg where
  command : Option (List String)
  entryPoint : Option (List String)
  workingDirectory : Option String
  deriving DecidableEq

/-- The image property: a plain URI-or-name string or a configuration
object. -/
inductive ImageSetting
  | uri (r : String)
  | obj (cfg : ImageObjectCfg)
  deriving DecidableEq

/-- JavaScript truthiness of the image property: an empty string is falsy,
an object is always truthy. -/
def imageTruthy : Option ImageSetting → Option ImageSetting
  | some (.uri s) => if s = "" then none else some (.uri s)
  | some (.obj c) => some (.obj c)
  | none => none

/-- The resolved runtime management mode. -/
inductive RuntimeMgmtSetting
  | auto
  | onFunctionUpdate
  | manual (arn : String)
  deriving DecidableEq

/-- The RuntimeManagementConfig property. -/
structure RuntimeMgmtProps where
  UpdateRuntimeOn : String
  RuntimeVersionArn : Option String
  deriving DecidableEq

/-- The fileSystemConfig property. -/
structure FileSystemCfg where
  arn : String
  localMountPath : String
  deriving DecidableEq

/-- A destination target: a bare reference string, or a structured object.
The objId component models JavaScript reference identity of the object,
which is what the lodash memoize Map cache keys on. -/
inductive DestTarget
  | str (s : String)
  | obj (objId : Nat) (dtype : Option String) (arn : String)
  deriving DecidableEq

/-- Equality of memoize cache keys (SameValueZero of a Map): value equality
for strings, reference identity for objects. -/
def sameMapKey : DestTarget → DestTarget → Bool
  | .str a, .str b => a = b
  | .obj i _ _, .obj j _ _ => i = j
  | _, _ => false

/-- The destinations property. -/
structure Destinations where
  onSuccess : Option DestTarget
  onFailure : Option DestTarget
  deriving DecidableEq

/-- A CORS list field of the url configuration: absent, explicitly null, or
a list (JavaScript distinguishes undefined from null here, and an empty
array is truthy). -/
inductive JsListField
  | absent
  | null
  | list (l : List String)
  deriving DecidableEq

/-- The object form of the cors property of a url configuration. -/
structure CorsConfig where
  allowedOrigins : JsListField
  allowedHeaders : JsListField
  allowedMethods : JsListField
  allowCredentials : Bool
  exposedResponseHeaders : Option (List String)
  maxAge : Option Nat
  deriving DecidableEq

/-- The cors property: the literal true or a configuration object. -/
inductive CorsSetting
  | ctrue
  | cobj (c : CorsConfig)
  deriving DecidableEq

/-- The object form of the url property. -/
structure UrlConfig where
  authorizer : Option String
  cors : Option CorsSetting
  invokeMode : Option String
  deriving DecidableEq

/-- The url property: the literal true or a configuration object. -/
inductive UrlSetting
  | utrue
  | ucfg (u : UrlConfig)
  deriving DecidableEq

/-- Fields of a url setting viewed as in the source (accessing a field of
the boolean true yields undefined). -/
def urlFields : UrlSetting → UrlConfig
  | .utrue => ⟨none, none, none⟩
  | .ucfg u => u

/-- Fields of a cors setting viewed as in the source. -/
def corsFields : CorsSetting → CorsConfig
  | .ctrue => ⟨.absent, .absent, .absent, false, none, none⟩
  | .cobj c => c

/-- A function definition as read from the service configuration. -/
structure FunctionDefinition where
  name : String
  handler : Option String
  image : Option ImageSetting
  memorySize : Option Nat
  timeout : Option Nat
  runtime : Option String
  runtimeManagement : Option RuntimeMgmtSetting
  architecture : Option String
  description : Option String
  condition : Option String
  dependsOn : Option (List String)
  tags : Option (List (String × String))
  ephemeralStorageSize : Option Nat
  onError : Option ArnLike
  kmsKeyArn : Option ArnLike
  tracing : Option TracingSetting
  environment : Option (List (String × String))
  role : Option RoleSetting
  vpc : VpcSetting
  fileSystemConfig : Option FileSystemCfg
  reservedConcurrency : Option Int
  disableLogs : Bool
  layers : Option (List LayerRef)
  versionFunction : Option Bool
  provisionedConcurrency : Option Nat
  snapStart : Bool
  url : Option UrlSetting
  destinations : Option Destinations
  maximumEventAge : Option Nat
  maximumRetryAttempts : Option Nat
  packageArtifact : Option String
  packageIndividually : Bool
  deriving DecidableEq

/-- Provider level defaults of the service. -/
structure ProviderConfig where
  name : String
  memorySize : Option Nat
  timeout : Option Nat
  runtime : Option String
  architecture : Option String
  tags : Option (List (String × String))
  environment : Option (List (String × String))
  tracingLambda : Option TracingSetting
  kmsKeyArn : Option ArnLike
  role : Option RoleSetting
  vpc : Option VpcCfg
  layers : Option (List LayerRef)
  versionFunctions : Option Bool
  lambdaHashingVersion : Option Nat
  deriving DecidableEq

/-- The service: provider defaults, the declared functions (in declaration
order, keyed by their configuration key), service level packaging settings,
and the resolution table of container images (the external
resolveImageUriAndSha collaborator). -/
structure Service where
  serviceName : String
  provider : ProviderConfig
  functions : List (String × FunctionDefinition)
  packageArtifact : Option String
  packageIndividually : Bool
  packageDeploymentBucket : Option String
  packageArtifactDirectoryName : String
  serviceArtifact : Option String
  serviceDir : String
  images : List (String × String × String)
  deriving DecidableEq

/-- Command line options relevant to the compiler. -/
structure CompileOptions where
  enforceHashUpdate : Bool
  deriving DecidableEq

/-- Model of the constructor of AwsCompileFunctions: when the provider is
aws and versionFunctions is null or undefined it is defaulted to true. -/
def normalizeService (svc : Service) : Service :=
  if svc.provider.name = "aws" ∧ svc.provider.versionFunctions = none then
    { svc with provider := { svc.provider with versionFunctions := some true } }
  else svc

def getFunction (svc : Service) (fnKey : String) : Option FunctionDefinition :=
  svc.functions.lookup fnKey

/- ### Resource graph model -/

/-- The S3Bucket value of the Code property: a configured deployment bucket
name or the Ref to the framework managed bucket. -/
inductive S3BucketRef
  | named (s : String)
  | deploymentBucketRef
  deriving DecidableEq

/-- The Code property bag of the compute resource. -/
structure CodeProps where
  S3Bucket : Option S3BucketRef
  S3Key : Option String
  ImageUri : Option String
  deriving DecidableEq

/-- The property bag of the AWS::Lambda::Function resource, as assembled by
compileFunction.  Absent keys (and keys holding undefined) are none. -/
structure FunctionProperties where
  Code : CodeProps
  Handler : Option String
  Runtime : Option String
  PackageType : Option String
  RuntimeManagementConfig : Option RuntimeMgmtProps
  ImageConfig : Option ImageObjectCfg
  FunctionName : Option String
  MemorySize : Option Nat
  Timeout : Option Nat
  Architectures : Option (List String)
  Description : Option String
  Tags : Option (List (String × String))
  EphemeralStorage : Option Nat
  DeadLetterConfig : Option ArnLike
  KmsKeyArn : Option ArnLike
  TracingConfig : Option String
  Environment : Option (List (String × String))
  Role : RoleProp
  VpcConfig : Option VpcProps
  FileSystemConfigs : Option FileSystemCfg
  ReservedConcurrentExecutions : Option Int
  Layers : Option (List LayerRef)
  SnapStart : Option String
  deriving DecidableEq

/-- A value that is a literal string or a Ref to a logical id. -/
inductive RefOrStr
  | lit (s : String)
  | ref (logicalId : String)
  deriving DecidableEq

/-- The property bag of the AWS::Lambda::Version resource. -/
structure VersionProperties where
  FunctionName : RefOrStr
  CodeSha256 : String
  Description : Option String
  deriving DecidableEq

/-- The property bag of the AWS::Lambda::Alias resource.  FunctionVersion is
always the Fn::GetAtt of a version logical id. -/
structure AliasProperties where
  FunctionName : RefOrStr
  FunctionVersionOf : String
  Name : String
  ProvisionedConcurrentExecutions : Option Nat
  deriving DecidableEq

/-- The invocation target produced by the external resolveLambdaTarget
utility.  Modelled from the spec: the most specific invocation target, the
alias when one was created, otherwise the unqualified compute resource. -/
inductive LambdaTargetRef
  | aliasRef (functionLogicalId aliasName : String)
  | fnGetAtt (functionLogicalId : String)
  deriving DecidableEq

/-- The Cors property bag written on the AWS::Lambda::Url resource.  Keys
holding undefined are modelled as none (they are dropped on template
serialization). -/
structure CompiledCors where
  AllowCredentials : Option Bool
  AllowHeaders : Option (List String)
  AllowMethods : Option (List String)
  AllowOrigins : Option (List String)
  ExposeHeaders : Option (List String)
  MaxAge : Option Nat
  deriving DecidableEq

/-- The property bag of the AWS::Lambda::Url resource. -/
structure UrlProps where
  AuthType : String
  TargetFunctionArn : LambdaTargetRef
  Cors : Option CompiledCors
  InvokeMode : Option String
  deriving DecidableEq

/-- The property bag of the public invoke AWS::Lambda::Permission resource. -/
structure UrlPermissionProps where
  FunctionName : LambdaTargetRef
  Action : String
  Principal : String
  FunctionUrlAuthType : String
  deriving DecidableEq

/-- A resolved destination pointer written into DestinationConfig. -/
inductive DestArn
  | lit (s : String)
  | resolvedFn (name : String)
  deriving DecidableEq

/-- The property bag of the AWS::Lambda::EventInvokeConfig resource. -/
structure EventInvokeProps where
  FunctionName : RefOrStr
  OnSuccess : Option DestArn
  OnFailure : Option DestArn
  Qualifier : String
  MaximumEventAgeInSeconds : Option Nat
  MaximumRetryAttempts : Option Nat
  deriving DecidableEq

/-- The Content property bag of a layer resource. -/
structure LayerContentProps where
  S3Bucket : Option S3BucketRef
  S3Key : Option String
  deriving DecidableEq

/-- The property bag of an AWS::Lambda::LayerVersion resource defined in the
same template. -/
structure LayerProps where
  LayerName : Option String
  Content : LayerContentProps
  CompatibleRuntimes : Option (List String)
  Description : Option String
  deriving DecidableEq

/-- The Action value of a permission statement: the source pushes either an
array of actions or a single action string. -/
inductive ActionVal
  | list (l : List String)
  | single (s : String)
  deriving DecidableEq

/-- The Resource value of a permission statement: an array of ARN strings, a
single ARN string, or the Fn::Sub workaround naming a same-service
function. -/
inductive ResourceVal
  | list (l : List String)
  | single (s : String)
  | sub (functionName : String)
  deriving DecidableEq

/-- A permission statement of the default execution role policy document. -/
structure IamStatement where
  Effect : String
  Action : ActionVal
  Resource : ResourceVal
  deriving DecidableEq

/-- The property bag of a resource, discriminated by resource kind.  The
iamRole case carries Properties.Policies[0].PolicyDocument.Statement of the
IamRoleLambdaExecution resource; unrelated pre-seeded resources are the
otherRes case. -/
inductive ResourceProps
  | lambdaFunction (p : FunctionProperties)
  | lambdaVersion (p : VersionProperties)
  | lambdaAlias (p : AliasProperties)
  | lambdaUrl (p : UrlProps)
  | lambdaPermission (p : UrlPermissionProps)
  | eventInvokeConfig (p : EventInvokeProps)
  | iamRole (statements : List IamStatement)
  | lambdaLayer (p : LayerProps)
  | otherRes (tag : String)
  deriving DecidableEq

/-- A resource of the template: type tag, property bag, dependency list,
optional deletion policy and condition, and the internal
_serverlessLayerName marker carried by layer resources. -/
structure Resource where
  rtype : String
  props : ResourceProps
  dependsOn : List String
  deletionPolicy : Option String
  condition : Option String
  serverlessLayerName : Option String
  deriving DecidableEq

/-- The value of a template output. -/
inductive OutputValue
  | refId (logicalId : String)
  | getAttUrl (logicalId : String)
  deriving DecidableEq

/-- The mutable compilation state: the Resources and Outputs maps of the
compiled CloudFormation template (in insertion order, as JavaScript object
keys are ordered), plus the cache of the memoized
ensureTargetExecutionPermission (one cache per compilation, created in the
plugin constructor). -/
structure CompileState where
  resources : List (String × Resource)
  outputs : List (String × OutputValue)
  destCache : List DestTarget
  deriving DecidableEq

def lookupRes (st : CompileState) (logicalId : String) : Option Resource :=
  st.resources.lookup logicalId

def setRes (st : CompileState) (logicalId : String) (r : Resource) : CompileState :=
  { st with resources := jsObjSet st.resources logicalId r }

/-- In-place mutation of an already inserted resource (JavaScript object
references alias the template entry). -/
def updateRes (st : CompileState) (logicalId : String) (f : Resource → Resource) :
    CompileState :=
  { st with resources :=
      st.resources.map (fun p => if p.1 = logicalId then (p.1, f p.2) else p) }

def setOutput (st : CompileState) (logicalId : String) (v : OutputValue) : CompileState :=
  { st with outputs := jsObjSet st.outputs logicalId v }

/-- The statement list of the default execution role, when the
IamRoleLambdaExecution resource is present in the template. -/
def iamStatementsOf (st : CompileState) : Option (List IamStatement) :=
  match lookupRes st "IamRoleLambdaExecution" with
  | some r =>
    match r.props with
    | .iamRole stmts => some stmts
    | _ => none
  | none => none

def setIamStatements (st : CompileState) (stmts : List IamStatement) : CompileState :=
  updateRes st "IamRoleLambdaExecution" (fun r => { r with props := .iamRole stmts })

/-- The type and deletion policy view of a template entry. -/
def metaView (st : CompileState) (id : String) : Option (String × Option String) :=
  (lookupRes st id).map (fun r => (r.rtype, r.deletionPolicy))

/-- Array push of a statement onto the default policy document, guarded by
the presence of the default role (the source checks
cfTemplate.Resources.IamRoleLambdaExecution before pushing). -/
def pushIam (st : CompileState) (s : IamStatement) : CompileState :=
  match iamStatementsOf st with
  | some cur => setIamStatements st (cur ++ [s])
  | none => st

/-- Model of lodash unionWith(statements, [s], isEqual): appends s unless a
deep-structurally-equal statement is already present. -/
def unionIam (st : CompileState) (s : IamStatement) : CompileState :=
  match iamStatementsOf st with
  | some cur => setIamStatements st (if s ∈ cur then cur else cur ++ [s])
  | none => st

/- ### Naming collaborator.
Modelled from the spec: logicalId(kind, functionName, ...extra) is a
deterministic, collision-free derivation from the function name; each kind
appends its own fixed suffix. -/

def getLambdaLogicalId (fnName : String) : String := fnName ++ "LambdaFunction"

def getLogGroupLogicalId (fnName : String) : String := fnName ++ "LogGroup"

def getLambdaVersionLogicalId (fnName digest : String) : String :=
  fnName ++ "LambdaVersion" ++ digest

def getLambdaVersionOutputLogicalId (fnName : String) : String :=
  fnName ++ "LambdaFunctionQualifiedArn"

def getLambdaProvisionedConcurrencyAliasLogicalId (fnName : String) : String :=
  fnName ++ "ProvConcLambdaAlias"

def getLambdaProvisionedConcurrencyAliasName : String := "provisioned"

def getLambdaSnapStartAliasLogicalId (fnName : String) : String :=
  fnName ++ "SnapStartLambdaAlias"

def getLambdaSnapStartEnabledAliasName : String := "snapstart"

def getLambdaFunctionUrlLogicalId (fnName : String) : String :=
  fnName ++ "LambdaFunctionUrl"

def getLambdaFunctionUrlOutputLogicalId (fnName : String) : String :=
  fnName ++ "LambdaFunctionUrlOutput"

def getLambdaFnUrlPermissionLogicalId (fnName : String) : String :=
  fnName ++ "LambdaFnUrlPermission"

def getLambdaEventConfigLogicalId (fnName : String) : String :=
  fnName ++ "LambdaEvConf"

/-- Modelled from the spec: the service wide artifact file name produced by
the naming collaborator. -/
def getServiceArtifactName (svc : Service) : String := svc.serviceName ++ ".zip"

/-- Modelled from the spec: the per function artifact file name. -/
def getFunctionArtifactName (fnKey : String) : String := fnKey ++ ".zip"

/-- Modelled from the spec: the artifact path of a layer, resolved by the
external resolveLayerArtifactName collaborator from the layer name. -/
def resolveLayerArtifactName (svc : Service) (layerName : String) : String :=
  svc.serviceDir ++ "/.serverless/" ++ layerName ++ ".zip"

/- ### External file hashing collaborator -/

/-- The local file system: a map from path to file content. -/
abbrev Fsys := List (String × String)

/-- Injective model of the hex digest of a file content (the hash(path) to
digestString contract of the get-hash-for-file-path collaborator: the digest
is a fixed deterministic function of the file bytes). -/
def fileHashOf (content : String) : String := "sha256hex:" ++ content

/-- Modelled from the spec: the content-hash-for-path collaborator, failing
with an I/O error kind on unreadable paths. -/
def getHashForFilePath (fsys : Fsys) (p : String) : Except Err String :=
  match fsys.lookup p with
  | some c => .ok (fileHashOf c)
  | none => .error ⟨.missingFile, p⟩

/-- Reading raw file bytes (the legacy mode streams them into the digest). -/
def getFileContents (fsys : Fsys) (p : String) : Except Err String :=
  match fsys.lookup p with
  | some c => .ok c
  | none => .error ⟨.missingFile, p⟩

/- ### Version digest model -/

/-- One extracted layer configuration: the _serverlessLayerName, the Ref
logical id, and the Properties of the layer resource. -/
structure LayerSnapshotEntry where
  name : String
  ref : String
  properties : LayerProps
  deriving DecidableEq

/-- The layer configuration attachment of the canonical snapshot: the legacy
mode builds an object keyed by layer name (each layer property bag
key-sorted), the current mode keeps the extracted list. -/
inductive SnapshotLayers
  | legacyByName (m : List (String × LayerProps))
  | currentList (l : List LayerSnapshotEntry)
  deriving DecidableEq

/-- The canonical snapshot of the compute resource properties that is
serialized into the version hash: a deep clone with the Code field dropped
in the handler case and the ReservedConcurrentExecutions and Tags fields
dropped always, plus the attached layer configurations.  Key order of the
serialized JSON is canonical (the legacy mode sorts the top level and each
layer property bag, the current mode deep-sorts every level), so a structure
value with fixed field order is a faithful model of the serialized form. -/
structure SnapshotProps where
  Code : Option CodeProps
  Handler : Option String
  Runtime : Option String
  PackageType : Option String
  RuntimeManagementConfig : Option RuntimeMgmtProps
  ImageConfig : Option ImageObjectCfg
  FunctionName : Option String
  MemorySize : Option Nat
  Timeout : Option Nat
  Architectures : Option (List String)
  Description : Option String
  EphemeralStorage : Option Nat
  DeadLetterConfig : Option ArnLike
  KmsKeyArn : Option ArnLike
  TracingConfig : Option String
  Environment : Option (List (String × String))
  Role : RoleProp
  VpcConfig : Option VpcProps
  FileSystemConfigs : Option FileSystemCfg
  Layers : Option (List LayerRef)
  SnapStart : Option String
  layerConfigurations : SnapshotLayers
  deriving DecidableEq

/-- One chunk written to the SHA-256 accumulator: the current mode writes
the hex digest of a file, the legacy mode streams the raw file bytes, and
both modes end with the serialized canonical snapshot. -/
inductive HashChunk
  | fileDigest (h : String)
  | fileBytes (content : String)
  | snapshotJson (s : SnapshotProps)
  deriving DecidableEq

/-- The version digest is modelled injectively as the list of chunks written
to the hash: the real digest is a fixed deterministic function (base64 of
SHA-256) of exactly this stream. -/
abbrev VersionDigest := List HashChunk

/- Deterministic string encoding of a digest, modelling the finalization of
the hash to an identifier-safe encoding that is embedded in the version
logical id. -/

def encOpt {α : Type} (f : α → String) : Option α → String
  | none => "~"
  | some a => "J" ++ f a

def encList {α : Type} (f : α → String) (l : List α) : String :=
  "(" ++ String.intercalate "," (l.map f) ++ ")"

def encStr (s : String) : String := s

def encPairS (p : String × String) : String := p.1 ++ ":" ++ p.2

def encS3 : S3BucketRef → String
  | .named s => "n" ++ s
  | .deploymentBucketRef => "d"

def encCode (c : CodeProps) : String :=
  encOpt encS3 c.S3Bucket ++ "|" ++ encOpt encStr c.S3Key ++ "|" ++ encOpt encStr c.ImageUri

def encRtm (r : RuntimeMgmtProps) : String :=
  r.UpdateRuntimeOn ++ encOpt encStr r.RuntimeVersionArn

def encImgCfg (c : ImageObjectCfg) : String :=
  encOpt (encList encStr) c.command ++ encOpt (encList encStr) c.entryPoint ++
    encOpt encStr c.workingDirectory

def encArnLike : ArnLike → String
  | .astr s => "s" ++ s
  | .aref s => "r" ++ s

def encRole : RoleProp → String
  | .arnLit s => "a" ++ s
  | .getAttArn s => "g" ++ s
  | .otherRef s => "o" ++ s

def encVpc (v : VpcProps) : String :=
  encOpt toString v.Ipv6AllowedForDualStack ++ encList encStr v.SecurityGroupIds ++
    encList encStr v.SubnetIds

def encFsCfg (f : FileSystemCfg) : String := f.arn ++ "@" ++ f.localMountPath

def encLayerRef : LayerRef → String
  | .ref s => "R" ++ s
  | .arn s => "A" ++ s

def encLayerContent (c : LayerContentProps) : String :=
  encOpt encS3 c.S3Bucket ++ encOpt encStr c.S3Key

def encLayerProps (p : LayerProps) : String :=
  encOpt encStr p.LayerName ++ encLayerContent p.Content ++
    encOpt (encList encStr) p.CompatibleRuntimes ++ encOpt encStr p.Description

def encSnapLayers : SnapshotLayers → String
  | .legacyByName m => "L" ++ encList (fun p => p.1 ++ "=" ++ encLayerProps p.2) m
  | .currentList l =>
    "C" ++ encList (fun e => e.name ++ "/" ++ e.ref ++ "/" ++ encLayerProps e.properties) l

def encSnapshot (s : SnapshotProps) : String :=
  String.intercalate ";"
    [encOpt encCode s.Code, encOpt encStr s.Handler, encOpt encStr s.Runtime,
     encOpt encStr s.PackageType, encOpt encRtm s.RuntimeManagementConfig,
     encOpt encImgCfg s.ImageConfig, encOpt encStr s.FunctionName,
     encOpt toString s.MemorySize, encOpt toString s.Timeout,
     encOpt (encList encStr) s.Architectures, encOpt encStr s.Description,
     encOpt toString s.EphemeralStorage, encOpt encArnLike s.DeadLetterConfig,
     encOpt encArnLike s.KmsKeyArn, encOpt encStr s.TracingConfig,
     encOpt (encList encPairS) s.Environment, encRole s.Role,
     encOpt encVpc s.VpcConfig, encOpt encFsCfg s.FileSystemConfigs,
     encOpt (encList encLayerRef) s.Layers, encOpt encStr s.SnapStart,
     encSnapLayers s.layerConfigurations]

def encChunk : HashChunk → String
  | .fileDigest h => "H" ++ h
  | .fileBytes c => "B" ++ c
  | .snapshotJson s => "S" ++ encSnapshot s

/-- Finalized identifier-safe encoding of the digest (model of the base64
SHA-256 value embedded in the version logical id). -/
def digestString (d : VersionDigest) : String :=
  String.intercalate "." (d.map encChunk)

/-- Whether the two generation hashing selects the legacy algorithm:
provider.lambdaHashingVersion numerically below 20201221 (undefined compares
false) and the enforce-hash-update option not set. -/
def legacyHashing (svc : Service) (opts : CompileOptions) : Bool :=
  (match svc.provider.lambdaHashingVersion with
   | some v => decide (v < 20201221)
   | none => false) && !opts.enforceHashUpdate

/-- The addFileToHash method: the legacy mode streams the raw artifact bytes
into the digest, the current mode writes the precomputed per-file hash. -/
def addFileToHash (svc : Service) (opts : CompileOptions) (fsys : Fsys) (p : String) :
    Except Err HashChunk :=
  if legacyHashing svc opts then (getFileContents fsys p).map .fileBytes
  else (getHashForFilePath fsys p).map .fileDigest

/-- Hashing of the sorted layer artifact paths, one chunk per file. -/
def hashLayerFiles (svc : Service) (opts : CompileOptions) (fsys : Fsys) :
    List String → Except Err (List HashChunk)
  | [] => .ok []
  | p :: ps =>
    match addFileToHash svc opts fsys p with
    | .error e => .error e
    | .ok c => (hashLayerFiles svc opts fsys ps).map (fun l => c :: l)

/-- extractLayerConfigurationsFromFunction: every Ref entry of the Layers
property that resolves to a layer resource of the same template contributes
its name, ref and properties; missing references are skipped.  The embedding
assumes the well-formedness property that Ref entries of a Layers list point
at layer resources. -/
def extractLayerStep (st : CompileState) (acc : List LayerSnapshotEntry) :
    LayerRef → List LayerSnapshotEntry
  | .arn _ => acc
  | .ref rid =>
    match lookupRes st rid with
    | none => acc
    | some cfg =>
      match cfg.props with
      | .lambdaLayer lp => acc ++ [⟨cfg.serverlessLayerName.getD "", rid, lp⟩]
      | _ => acc

def extractLayerConfigurationsFromFunction (props : FunctionProperties)
    (st : CompileState) : List LayerSnapshotEntry :=
  match props.Layers with
  | none => []
  | some ls => ls.foldl (extractLayerStep st) []

/-- What the layer extraction reads of the template per referenced logical
id: the layer property bag and the serverless layer name when the entry is a
lambda layer version resource, nothing otherwise. -/
def layerView (st : CompileState) (rid : String) : Option (String × LayerProps) :=
  match lookupRes st rid with
  | none => none
  | some cfg =>
    match cfg.props with
    | .lambdaLayer lp => some (cfg.serverlessLayerName.getD "", lp)
    | _ => none

/-- Dropping the deployment-package key of a layer property bag before it is
attached to the snapshot (delete layerConfig.properties.Content.S3Key). -/
def stripLayerContentKey (lp : LayerProps) : LayerProps :=
  { lp with Content := { lp.Content with S3Key := none } }

/-- The legacy layer configuration object: keyed by layer name in extraction
order (a repeated name keeps its first position and last value). -/
def legacyLayerMap (l : List LayerSnapshotEntry) : List (String × LayerProps) :=
  l.foldl (fun m e => jsObjSet m e.name e.properties) []

/-- The canonical snapshot of the compute resource properties: Code is kept
only in the image case, ReservedConcurrentExecutions and Tags are dropped,
and the layer configurations are attached. -/
def snapshotOfProps (p : FunctionProperties) (isImage : Bool) (layers : SnapshotLayers) :
    SnapshotProps :=
  { Code := if isImage then some p.Code else none
    Handler := p.Handler
    Runtime := p.Runtime
    PackageType := p.PackageType
    RuntimeManagementConfig := p.RuntimeManagementConfig
    ImageConfig := p.ImageConfig
    FunctionName := p.FunctionName
    MemorySize := p.MemorySize
    Timeout := p.Timeout
    Architectures := p.Architectures
    Description := p.Description
    EphemeralStorage := p.EphemeralStorage
    DeadLetterConfig := p.DeadLetterConfig
    KmsKeyArn := p.KmsKeyArn
    TracingConfig := p.TracingConfig
    Environment := p.Environment
    Role := p.Role
    VpcConfig := p.VpcConfig
    FileSystemConfigs := p.FileSystemConfigs
    Layers := p.Layers
    SnapStart := p.SnapStart
    layerConfigurations := layers }

/- ### Pure resolution of the compute resource properties -/

/-- JavaScript truthiness of the role setting (an empty role string is
falsy). -/
def roleTruthy : Option RoleSetting → Option RoleSetting
  | some (.str s) => if s = "" then none else some (.str s)
  | some r => some r
  | none => none

/-- JavaScript truthiness of an ARN-like setting (an empty string is falsy,
a reference object is truthy). -/
def arnTruthy : Option ArnLike → Option ArnLike
  | some (.astr s) => if s = "" then none else some (.astr s)
  | some (.aref s) => some (.aref s)
  | none => none

/-- Modelled from the spec: the externally supplied execution role of a
function (the getCustomExecutionRole provider helper), the function level
role falling back to the provider level role. -/
def getCustomExecutionRole (svc : Service) (fd : FunctionDefinition) : Option RoleSetting :=
  match fd.role with
  | some r => some r
  | none => svc.provider.role

/-- The compileRole method: returns the Role property value and the logical
ids appended to DependsOn. -/
def compileRole : RoleSetting → RoleProp × List String
  | .str s =>
    if strStartsWith s "arn:" then (.arnLit s, [])
    else if s = "IamRoleLambdaExecution" then (.getAttArn s, [])
    else (.getAttArn s, [s])
  | .getAtt l => (.getAttArn l, [l])
  | .otherRef s => (.otherRef s, [])

/-- The artifact path of a handler function: the function or service level
package artifact when usable, otherwise the conventional path under the
service directory (functionObject.package.artifact resolution of the
source). -/
def resolveArtifactFilePath (svc : Service) (fd : FunctionDefinition) (fnKey : String) :
    String :=
  let packaged : Option String :=
    match strTruthy fd.packageArtifact with
    | some a => some a
    | none => strTruthy svc.packageArtifact
  let useDefaultPath :=
    packaged.isNone ∨
      ((strTruthy svc.serviceArtifact).isSome ∧ (strTruthy fd.packageArtifact).isNone)
  if useDefaultPath then
    svc.serviceDir ++ "/.serverless/" ++
      (if svc.packageIndividually || fd.packageIndividually then getFunctionArtifactName fnKey
       else getServiceArtifactName svc)
  else packaged.getD ""

/-- Modelled from the spec: provider.resolveFunctionRuntimeManagement, which
defaults an absent setting to the auto mode. -/
def resolveFunctionRuntimeManagement : Option RuntimeMgmtSetting → RuntimeMgmtSetting
  | none => .auto
  | some m => m

/-- The RuntimeManagementConfig property written for a non-auto mode. -/
def runtimeMgmtProps : RuntimeMgmtSetting → Option RuntimeMgmtProps
  | .auto => none
  | .onFunctionUpdate => some ⟨"FunctionUpdate", none⟩
  | .manual arn => some ⟨"Manual", some arn⟩

/-- Modelled from the spec: provider.getRuntime, the function runtime
falling back to the provider default runtime. -/
def getRuntime (p : ProviderConfig) (r : Option String) : String :=
  (strTruthy r).getD ((strTruthy p.runtime).getD "nodejs14.x")

/-- The ImageConfig property assembled from the object form of the image
setting (present only when at least one key is set). -/
def imageConfigOf : ImageSetting → Option ImageObjectCfg
  | .uri _ => none
  | .obj c =>
    let cfg : ImageObjectCfg := ⟨c.command, c.entryPoint, strTruthy c.workingDirectory⟩
    if cfg.command.isSome ∨ cfg.entryPoint.isSome ∨ cfg.workingDirectory.isSome then some cfg
    else none

/-- Effective memory: function memorySize, else provider memorySize, else
1024 (JavaScript or-chains treat 0 as absent). -/
def resolvedMemory (svc : Service) (fd : FunctionDefinition) : Nat :=
  ((natTruthy fd.memorySize).orElse (fun _ => natTruthy svc.provider.memorySize)).getD 1024

/-- Effective timeout: function timeout, else provider timeout, else 6. -/
def resolvedTimeout (svc : Service) (fd : FunctionDefinition) : Nat :=
  ((natTruthy fd.timeout).orElse (fun _ => natTruthy svc.provider.timeout)).getD 6

/-- The effective tracing setting (function level or-else the lambda entry
of the provider level tracing object). -/
def effectiveTracing (svc : Service) (fd : FunctionDefinition) : Option TracingSetting :=
  match tracingTruthy fd.tracing with
  | some t => some t
  | none => tracingTruthy svc.provider.tracingLambda

/-- The TracingConfig mode string: a boolean setting means Active. -/
def tracingMode : TracingSetting → String
  | .tbool _ => "Active"
  | .tstr s => s

/-- The resolved VpcConfig property: skipped when the function vpc is
explicitly null or false; every field falls back from the function object to
the provider object; the property is deleted when either id list is
absent. -/
def resolvedVpcConfig (svc : Service) (fd : FunctionDefinition) : Option VpcProps :=
  match fd.vpc with
  | .vnull => none
  | .vfalse => none
  | fv =>
    let fcfg : VpcCfg := match fv with | .cfg c => c | _ => ⟨none, none, none⟩
    let pcfg : VpcCfg := svc.provider.vpc.getD ⟨none, none, none⟩
    let ipv6 : Option Bool :=
      if fcfg.ipv6AllowedForDualStack = some true then some true
      else pcfg.ipv6AllowedForDualStack
    let sg : Option (List String) :=
      match fcfg.securityGroupIds with
      | some l => some l
      | none => pcfg.securityGroupIds
    let sub : Option (List String) :=
      match fcfg.subnetIds with
      | some l => some l
      | none => pcfg.subnetIds
    match sg, sub with
    | some g, some u => some ⟨ipv6, g, u⟩
    | _, _ => none

/-- The result of the pure part of compileFunction that assembles the
compute resource: property bag, dependency list, condition, plus the
resolved artifact path (handler case) and the image digest (image case)
carried into the version phase. -/
structure BuiltFunction where
  props : FunctionProperties
  dependsOn : List String
  condition : Option String
  artifactFilePath : Option String
  imageSha : Option String
  deriving DecidableEq

/-- The pure property assembly of compileFunction (source lines 168 to 464):
every conditional property attachment of the source, in the same
fall-back order. -/
def buildFunctionProps (svc : Service) (fd : FunctionDefinition) (fnKey : String)
    (imageInfo : Option (String × String)) : BuiltFunction :=
  let isHandler := (strTruthy fd.handler).isSome
  let artifactFilePath : Option String :=
    if isHandler then some (resolveArtifactFilePath svc fd fnKey) else none
  let code : CodeProps :=
    if isHandler then
      { S3Bucket := some
          (match strTruthy svc.packageDeploymentBucket with
           | some b => .named b
           | none => .deploymentBucketRef)
        S3Key := some
          (svc.packageArtifactDirectoryName ++ "/" ++ pathBaseName (artifactFilePath.getD ""))
        ImageUri := none }
    else { S3Bucket := none, S3Key := none, ImageUri := imageInfo.map (fun p => p.1) }
  let rp := compileRole
    (match roleTruthy (getCustomExecutionRole svc fd) with
     | some r => r
     | none => .str "IamRoleLambdaExecution")
  let dep1 := fd.dependsOn.getD [] ++ rp.2
  let dependsOn := if fd.disableLogs then dep1 else getLogGroupLogicalId fnKey :: dep1
  let props : FunctionProperties :=
    { Code := code
      Handler := if isHandler then strTruthy fd.handler else none
      Runtime := if isHandler then some (getRuntime svc.provider fd.runtime) else none
      PackageType := if isHandler then none else some "Image"
      RuntimeManagementConfig :=
        if isHandler then runtimeMgmtProps (resolveFunctionRuntimeManagement fd.runtimeManagement)
        else none
      ImageConfig := if isHandler then none else (imageTruthy fd.image).bind imageConfigOf
      FunctionName := some fd.name
      MemorySize := some (resolvedMemory svc fd)
      Timeout := some (resolvedTimeout svc fd)
      Architectures :=
        ((strTruthy fd.architecture).orElse (fun _ => strTruthy svc.provider.architecture)).map
          (fun a => [a])
      Description := strTruthy fd.description
      Tags :=
        if fd.tags.isSome ∨ svc.provider.tags.isSome then
          some (jsAssign (svc.provider.tags.getD []) (fd.tags.getD []))
        else none
      EphemeralStorage := natTruthy fd.ephemeralStorageSize
      DeadLetterConfig := arnTruthy fd.onError
      KmsKeyArn :=
        (match arnTruthy fd.kmsKeyArn with
         | some k => some k
         | none => arnTruthy svc.provider.kmsKeyArn)
      TracingConfig := (effectiveTracing svc fd).map tracingMode
      Environment :=
        if fd.environment.isSome ∨ svc.provider.environment.isSome then
          some (jsAssign (svc.provider.environment.getD []) (fd.environment.getD []))
        else none
      Role := rp.1
      VpcConfig := resolvedVpcConfig svc fd
      FileSystemConfigs := fd.fileSystemConfig
      ReservedConcurrentExecutions :=
        if intTruthy fd.reservedConcurrency ∨ fd.reservedConcurrency = some 0 then
          fd.reservedConcurrency
        else none
      Layers :=
        match fd.layers with
        | some l => some l
        | none => svc.provider.layers
      SnapStart := none }
  { props := props, dependsOn := dependsOn, condition := strTruthy fd.condition,
    artifactFilePath := artifactFilePath, imageSha := imageInfo.map (fun p => p.2) }

/- ### Stateful compilation phases -/

/-- The handler-or-image validation at the top of compileFunction (source
lines 155 to 166): neither set and both set fail with two distinct stable
error codes naming the function. -/
def validatePhase (fd : FunctionDefinition) (fnKey : String) : Option Err :=
  if (strTruthy fd.handler).isNone ∧ (imageTruthy fd.image).isNone then
    some ⟨.neitherHandlerNorImage, fnKey⟩
  else if (strTruthy fd.handler).isSome ∧ (imageTruthy fd.image).isSome then
    some ⟨.bothHandlerAndImage, fnKey⟩
  else none

/-- Modelled from the spec: provider.resolveImageUriAndSha, the external
resolution of a container image to its URI and content digest. -/
def resolveImageUriAndSha (svc : Service) (fnKey : String) : Except Err (String × String) :=
  match svc.images.lookup fnKey with
  | some p => .ok p
  | none => .error ⟨.imageUnresolved, fnKey⟩

/-- The dead letter permission push (string target, default role only). -/
def applyDeadLetterIam (st : CompileState) (d : Option ArnLike) : CompileState :=
  match d with
  | some (.astr arn) => pushIam st ⟨"Allow", .list ["sns:Publish"], .list [arn]⟩
  | _ => st

/-- The KMS decrypt permission union (string key, default role only). -/
def applyKmsIam (st : CompileState) (k : Option ArnLike) : CompileState :=
  match k with
  | some (.astr arn) => unionIam st ⟨"Allow", .list ["kms:Decrypt"], .list [arn]⟩
  | _ => st

/-- The tracing permission union. -/
def applyTracingIam (st : CompileState) (t : Option String) : CompileState :=
  match t with
  | some _ =>
    unionIam st
      ⟨"Allow", .list ["xray:PutTraceSegments", "xray:PutTelemetryRecords"], .list ["*"]⟩
  | none => st

/-- The file system access permission push. -/
def applyFsIam (st : CompileState) (c : FileSystemCfg) : CompileState :=
  pushIam st
    ⟨"Allow", .list ["elasticfilesystem:ClientMount", "elasticfilesystem:ClientWrite"],
     .list [c.arn]⟩

/-- Insertion of the assembled compute resource under its logical id. -/
def insertFunctionResource (st : CompileState) (fnKey : String) (b : BuiltFunction) :
    CompileState :=
  setRes st (getLambdaLogicalId fnKey)
    ⟨"AWS::Lambda::Function", .lambdaFunction b.props, b.dependsOn, none, b.condition, none⟩

/-- The stateful part of the compute resource compilation: the permission
statements appended to the shared default policy document (dead letter
target, KMS key, tracing, file system access), the vpc prerequisite check of
fileSystemConfig, and the insertion of the compute resource into the
template (in source order). -/
def buildPhase (svc : Service) (st : CompileState) (fnKey : String)
    (fd : FunctionDefinition) (imageInfo : Option (String × String)) :
    CompileState × Except Err BuiltFunction :=
  let b := buildFunctionProps svc fd fnKey imageInfo
  let st1 := applyDeadLetterIam st b.props.DeadLetterConfig
  let st2 := applyKmsIam st1 b.props.KmsKeyArn
  let st3 := applyTracingIam st2 b.props.TracingConfig
  match fd.fileSystemConfig with
  | some fsCfg =>
    if b.props.VpcConfig = none then (st3, .error ⟨.fileSystemConfigMissingVpc, fnKey⟩)
    else (insertFunctionResource (applyFsIam st3 fsCfg) fnKey b, .ok b)
  | none => (insertFunctionResource st3 fnKey b, .ok b)

/-- shouldVersionFunction: the function level versionFunction override when
not null, else the provider level versionFunctions flag (truthiness of the
resulting value). -/
def shouldVersionFunction (svc : Service) (fd : FunctionDefinition) : Bool :=
  match fd.versionFunction with
  | some b => b
  | none => svc.provider.versionFunctions = some true

/-- The guard of the version branch: versioning enabled, or provisioned
concurrency set (truthy), or snapStart set. -/
def versionCondition (svc : Service) (fd : FunctionDefinition) : Bool :=
  shouldVersionFunction svc fd || (natTruthy fd.provisionedConcurrency).isSome || fd.snapStart

/-- A created alias recorded on the function object as targetAlias. -/
structure TargetAlias where
  name : String
  logicalId : String
  deriving DecidableEq

/-- The observable results of compileFunction for one function (the values
the source records on the function object). -/
structure FnOut where
  versionLogicalId : Option String
  versionDigest : Option VersionDigest
  targetAlias : Option TargetAlias
  deriving DecidableEq

/-- Result of the version branch. -/
structure VersionOut where
  versionLogicalId : String
  versionDigest : VersionDigest
  targetAlias : Option TargetAlias
  deriving DecidableEq

/-- In-place update of the property bag of the inserted compute resource. -/
def updateFnProps (st : CompileState) (fnLogicalId : String)
    (f : FunctionProperties → FunctionProperties) : CompileState :=
  updateRes st fnLogicalId
    (fun r =>
      match r.props with
      | .lambdaFunction p => { r with props := .lambdaFunction (f p) }
      | _ => r)

/-- The enforce-hash-update marker description. -/
def enforceDescription : String := "temporary-description-to-enforce-hash-update"

/-- The properties snapshot base of the version branch: the compute resource
properties, with the enforce-hash-update marker description when that option
is set. -/
def versionProps0 (opts : CompileOptions) (b : BuiltFunction) : FunctionProperties :=
  if opts.enforceHashUpdate then { b.props with Description := some enforceDescription }
  else b.props

/-- The state at the start of the version branch: with the
enforce-hash-update option the marker description is also written through
the alias onto the inserted compute resource. -/
def versionState0 (opts : CompileOptions) (st : CompileState) (fnLogicalId : String) :
    CompileState :=
  if opts.enforceHashUpdate then
    updateFnProps st fnLogicalId (fun p => { p with Description := some enforceDescription })
  else st

/-- The pure value computation of the version branch: the CodeSha256 value
and the digest stream, from the artifact (or image digest), the referenced
local layers (hashed in sorted artifact path order), and the serialized
canonical snapshot. -/
def artifactHashStep (svc : Service) (opts : CompileOptions) (fsys : Fsys)
    (b : BuiltFunction) : Except Err (String × List HashChunk) :=
  match b.imageSha with
  | some sha => .ok (sha, [])
  | none =>
    match getHashForFilePath fsys (b.artifactFilePath.getD "") with
    | .error e => .error e
    | .ok fh =>
      match addFileToHash svc opts fsys (b.artifactFilePath.getD "") with
      | .error e => .error e
      | .ok c => .ok (fh, [c])

def versionCompute (svc : Service) (opts : CompileOptions) (fsys : Fsys)
    (fd : FunctionDefinition) (b : BuiltFunction) (props0 : FunctionProperties)
    (lcs : List LayerSnapshotEntry) : Except Err (String × VersionDigest) :=
  match artifactHashStep svc opts fsys b with
  | .error e => .error e
  | .ok (codeSha, artifactChunks) =>
    match hashLayerFiles svc opts fsys
        (sortStrings (lcs.map (fun e => resolveLayerArtifactName svc e.name))) with
    | .error e => .error e
    | .ok layerChunks =>
      let stripped :=
        lcs.map (fun e => { e with properties := stripLayerContentKey e.properties })
      let snap :=
        snapshotOfProps props0 (imageTruthy fd.image).isSome
          (if legacyHashing svc opts then .legacyByName (legacyLayerMap stripped)
           else .currentList stripped)
      .ok (codeSha, artifactChunks ++ layerChunks ++ [.snapshotJson snap])

/-- The insertions and checks of the version branch once the digest is
computed: version resource (DeletionPolicy Retain from the template), its
output, the conflict check, and the alias creation for provisioned
concurrency or SnapStart (each removing the DeletionPolicy again when
versioning itself is disabled). -/
def versionApply (svc : Service) (st0 : CompileState) (fnKey : String)
    (fd : FunctionDefinition) (codeSha : String) (digest : VersionDigest) :
    CompileState × Except Err VersionOut :=
  let fnLogicalId := getLambdaLogicalId fnKey
  let versionLogicalId := getLambdaVersionLogicalId fnKey (digestString digest)
  let versionResource : Resource :=
    ⟨"AWS::Lambda::Version",
     .lambdaVersion ⟨.ref fnLogicalId, codeSha, strTruthy fd.description⟩,
     [], some "Retain", none, none⟩
  let st1 := setRes st0 versionLogicalId versionResource
  let st2 := setOutput st1 (getLambdaVersionOutputLogicalId fnKey) (.refId versionLogicalId)
  if (natTruthy fd.provisionedConcurrency).isSome ∧ fd.snapStart then
    (st2, .error ⟨.provisionedConcurrencySnapStartConflict, fnKey⟩)
  else
    match natTruthy fd.provisionedConcurrency with
    | some pc =>
      let st3 :=
        if !shouldVersionFunction svc fd then
          updateRes st2 versionLogicalId (fun r => { r with deletionPolicy := none })
        else st2
      let aliasLogicalId := getLambdaProvisionedConcurrencyAliasLogicalId fnKey
      let aliasName := getLambdaProvisionedConcurrencyAliasName
      let aliasResource : Resource :=
        ⟨"AWS::Lambda::Alias",
         .lambdaAlias ⟨.ref fnLogicalId, versionLogicalId, aliasName, some pc⟩,
         [fnLogicalId], none, none, none⟩
      let st4 := setRes st3 aliasLogicalId aliasResource
      (st4, .ok ⟨versionLogicalId, digest, some ⟨aliasName, aliasLogicalId⟩⟩)
    | none =>
      if fd.snapStart then
        let st3 :=
          if !shouldVersionFunction svc fd then
            updateRes st2 versionLogicalId (fun r => { r with deletionPolicy := none })
          else st2
        let st4 :=
          updateFnProps st3 fnLogicalId (fun p => { p with SnapStart := some "PublishedVersions" })
        let aliasLogicalId := getLambdaSnapStartAliasLogicalId fnKey
        let aliasName := getLambdaSnapStartEnabledAliasName
        let aliasResource : Resource :=
          ⟨"AWS::Lambda::Alias",
           .lambdaAlias ⟨.ref fnLogicalId, versionLogicalId, aliasName, none⟩,
           [fnLogicalId], none, none, none⟩
        let st5 := setRes st4 aliasLogicalId aliasResource
        (st5, .ok ⟨versionLogicalId, digest, some ⟨aliasName, aliasLogicalId⟩⟩)
      else (st2, .ok ⟨versionLogicalId, digest, none⟩)

/-- The version branch of compileFunction (source lines 476 to 633): hash
the artifact and the locally defined layers, serialize the canonical
snapshot, then apply the insertions and checks. -/
def versionPhase (svc : Service) (opts : CompileOptions) (fsys : Fsys)
    (st : CompileState) (fnKey : String) (fd : FunctionDefinition) (b : BuiltFunction) :
    CompileState × Except Err VersionOut :=
  let props0 := versionProps0 opts b
  let st0 := versionState0 opts st (getLambdaLogicalId fnKey)
  let lcs := extractLayerConfigurationsFromFunction props0 st0
  match versionCompute svc opts fsys fd b props0 lcs with
  | .error e => (st0, .error e)
  | .ok (codeSha, digest) => versionApply svc st0 fnKey fd codeSha digest

/-- Modelled from the spec: resolveLambdaTarget, the most specific
invocation target of the function (the created alias when one exists, else
the unqualified compute resource). -/
def resolveLambdaTarget (fnKey : String) (ta : Option TargetAlias) : LambdaTargetRef :=
  match ta with
  | some a => .aliasRef (getLambdaLogicalId fnKey) a.name
  | none => .fnGetAtt (getLambdaLogicalId fnKey)

/-- The fixed default CORS allowed header list of the source. -/
def defaultAllowedHeaders : List String :=
  ["Content-Type", "X-Amz-Date", "Authorization", "X-Api-Key", "X-Amz-Security-Token",
   "X-Amzn-Trace-Id"]

/-- The compiled Cors property bag: each field starts from the fixed default
policy and is overridden field by field (a supplied list replaces the
default de-duplicated, an explicit null deletes the field, an absent field
keeps the default). -/
def buildCompiledCors : Option CorsSetting → Option CompiledCors
  | none => none
  | some cset =>
    let cf := corsFields cset
    let origins : Option (List String) :=
      match cf.allowedOrigins with
      | .list l => some (jsUniq l)
      | .null => none
      | .absent => some ["*"]
    let headers : Option (List String) :=
      match cf.allowedHeaders with
      | .list l => some (jsUniq l)
      | .null => none
      | .absent => some defaultAllowedHeaders
    let methods : Option (List String) :=
      match cf.allowedMethods with
      | .list l => some (jsUniq l)
      | .null => none
      | .absent => some ["*"]
    some
      { AllowCredentials := if cf.allowCredentials then some true else none
        AllowHeaders := headers
        AllowMethods := methods
        AllowOrigins := origins
        ExposeHeaders := cf.exposedResponseHeaders.map jsUniq
        MaxAge := cf.maxAge }

/-- compileFunctionUrl: the endpoint resource, its output, and the public
invoke permission when the auth mode is open. -/
def compileFunctionUrl (st : CompileState) (fnKey : String) (fd : FunctionDefinition)
    (ta : Option TargetAlias) : CompileState :=
  match fd.url with
  | none => st
  | some u =>
    let uf := urlFields u
    let auth := if uf.authorizer = some "aws_iam" then "AWS_IAM" else "NONE"
    let cors := buildCompiledCors uf.cors
    let dep := match ta with | some a => [a.logicalId] | none => []
    let urlResource : Resource :=
      ⟨"AWS::Lambda::Url",
       .lambdaUrl
         ⟨auth, resolveLambdaTarget fnKey ta, cors,
          if uf.invokeMode = some "RESPONSE_STREAM" then uf.invokeMode else none⟩,
       dep, none, none, none⟩
    let logicalId := getLambdaFunctionUrlLogicalId fnKey
    let st1 := setRes st logicalId urlResource
    let st2 := setOutput st1 (getLambdaFunctionUrlOutputLogicalId fnKey) (.getAttUrl logicalId)
    if auth = "NONE" then
      setRes st2 (getLambdaFnUrlPermissionLogicalId fnKey)
        ⟨"AWS::Lambda::Permission",
         .lambdaPermission
           ⟨resolveLambdaTarget fnKey ta, "lambda:InvokeFunctionUrl", "*", auth⟩,
         dep, none, none, none⟩
    else st2

/-- getDestinationsArn: an object contributes its embedded pointer, a
fully qualified string is used verbatim, any other string is resolved via
the external resolveFunctionArn naming scheme. -/
def getDestinationsArn : DestTarget → DestArn
  | .obj _ _ arn => .lit arn
  | .str s => if strStartsWith s "arn:" then .lit s else .resolvedFn s

/-- The destination action classification of
ensureTargetExecutionPermission: objects by their declared type, strings by
substring patterns of the fully qualified reference; unsupported shapes
fail. -/
def classifyDestinationAction : DestTarget → Except Err String
  | .obj _ t arn =>
    match t with
    | some "function" => .ok "lambda:InvokeFunction"
    | some "sqs" => .ok "sqs:SendMessage"
    | some "sns" => .ok "sns:Publish"
    | some "eventBus" => .ok "events:PutEvents"
    | _ => .error ⟨.unsupportedDestinationTarget, arn⟩
  | .str s =>
    if !strStartsWith s "arn:" || containsSubstr s ":function:" then .ok "lambda:InvokeFunction"
    else if containsSubstr s ":sqs:" then .ok "sqs:SendMessage"
    else if containsSubstr s ":sns:" then .ok "sns:Publish"
    else if containsSubstr s ":event-bus/" then .ok "events:PutEvents"
    else .error ⟨.unsupportedDestinationTarget, s⟩

/-- The Resource value of the destination permission statement: objects use
their embedded ARN, fully qualified strings are used verbatim, other strings
become the Fn::Sub workaround naming the target function. -/
def destinationResourceArn (svc : Service) : DestTarget → Except Err ResourceVal
  | .obj _ _ arn => .ok (.single arn)
  | .str s =>
    if strStartsWith s "arn:" then .ok (.single s)
    else
      match getFunction svc s with
      | some fd => .ok (.sub fd.name)
      | none => .error ⟨.functionNotFound, s⟩

/-- ensureTargetExecutionPermission, memoized in the plugin constructor on
its single argument: the Map cache hits on SameValueZero of the destination
target (string value, object reference identity); a fresh target appends one
permission statement to the default policy document and is cached only on
success. -/
def ensureTargetExecutionPermission (svc : Service) (st : CompileState) (d : DestTarget) :
    CompileState × Option Err :=
  if st.destCache.any (fun k => sameMapKey k d) then (st, none)
  else
    match iamStatementsOf st with
    | none => (st, some ⟨.missingIamRole, "IamRoleLambdaExecution"⟩)
    | some cur =>
      match classifyDestinationAction d with
      | .error e => (st, some e)
      | .ok action =>
        match destinationResourceArn svc d with
        | .error e => (st, some e)
        | .ok rArn =>
          let st1 := setIamStatements st (cur ++ [⟨"Allow", .single action, rArn⟩])
          ({ st1 with destCache := st1.destCache ++ [d] }, none)

/-- Processing of one destination target: no statement when the target is
absent or when an externally supplied execution role self-manages
permissions, otherwise the memoized permission append. -/
def destinationStep (svc : Service) (st : CompileState) (fd : FunctionDefinition)
    (target : Option DestTarget) : CompileState × Option Err :=
  match target with
  | none => (st, none)
  | some d =>
    if (roleTruthy (getCustomExecutionRole svc fd)).isSome then (st, none)
    else ensureTargetExecutionPermission svc st d

/-- The AWS::Lambda::EventInvokeConfig resource. -/
def eventInvokeResource (fnKey : String) (fd : FunctionDefinition) (ta : Option TargetAlias) :
    Resource :=
  ⟨"AWS::Lambda::EventInvokeConfig",
   .eventInvokeConfig
     ⟨.ref (getLambdaLogicalId fnKey),
      (fd.destinations.bind (fun ds => ds.onSuccess)).map getDestinationsArn,
      (fd.destinations.bind (fun ds => ds.onFailure)).map getDestinationsArn,
      (match ta with | some a => a.name | none => "$LATEST"),
      natTruthy fd.maximumEventAge,
      fd.maximumRetryAttempts⟩,
   (match ta with | some a => [a.logicalId] | none => []), none, none, none⟩

/-- compileFunctionEventInvokeConfig: resolve the on-success and on-failure
targets, append their execution permissions unless an external role is
supplied, and insert the event invoke config resource. -/
def compileFunctionEventInvokeConfig (svc : Service) (st : CompileState) (fnKey : String)
    (fd : FunctionDefinition) (ta : Option TargetAlias) : CompileState × Option Err :=
  if fd.destinations = none ∧ natTruthy fd.maximumEventAge = none ∧
      fd.maximumRetryAttempts = none then
    (st, none)
  else
    match destinationStep svc st fd (fd.destinations.bind (fun ds => ds.onSuccess)) with
    | (st1, some e) => (st1, some e)
    | (st1, none) =>
      match destinationStep svc st1 fd (fd.destinations.bind (fun ds => ds.onFailure)) with
      | (st2, some e) => (st2, some e)
      | (st2, none) =>
        (setRes st2 (getLambdaEventConfigLogicalId fnKey) (eventInvokeResource fnKey fd ta),
         none)

/-- The two trailing calls of compileFunction: the url and the event invoke
config builders. -/
def postVersionPhases (svc : Service) (st : CompileState) (fnKey : String)
    (fd : FunctionDefinition) (ta : Option TargetAlias) : CompileState × Option Err :=
  let st1 := compileFunctionUrl st fnKey fd ta
  compileFunctionEventInvokeConfig svc st1 fnKey fd ta

/-- The non-version tail of compileFunction. -/
def postOnly (svc : Service) (st : CompileState) (fnKey : String) (fd : FunctionDefinition) :
    CompileState × Except Err FnOut :=
  match postVersionPhases svc st fnKey fd none with
  | (st1, some e) => (st1, .error e)
  | (st1, none) => (st1, .ok ⟨none, none, none⟩)

/-- The version branch followed by the url and event invoke phases. -/
def versionAndPost (svc : Service) (opts : CompileOptions) (fsys : Fsys) (st : CompileState)
    (fnKey : String) (fd : FunctionDefinition) (b : BuiltFunction) :
    CompileState × Except Err FnOut :=
  match versionPhase svc opts fsys st fnKey fd b with
  | (st1, .error e) => (st1, .error e)
  | (st1, .ok v) =>
    match postVersionPhases svc st1 fnKey fd v.targetAlias with
    | (st2, some e) => (st2, .error e)
    | (st2, none) => (st2, .ok ⟨some v.versionLogicalId, some v.versionDigest, v.targetAlias⟩)

/-- Everything after the compute resource assembly. -/
def afterBuild (svc : Service) (opts : CompileOptions) (fsys : Fsys) (st : CompileState)
    (fnKey : String) (fd : FunctionDefinition) (b : BuiltFunction) :
    CompileState × Except Err FnOut :=
  if versionCondition svc fd then versionAndPost svc opts fsys st fnKey fd b
  else postOnly svc st fnKey fd

/- ### The asynchronous structure of compileFunction.
compileFunction is an async function.  Its first await point is the image
resolution for image based functions and the artifact hashing inside the
version branch for handler based functions; a handler based function outside
the version branch performs no await at all.  compileFunctionSync is the
synchronous prefix up to that first await, compileFunctionCont the
continuation from there to the end.  (The enforce-hash-update description
update, which the source performs just before the first hash await, is
modelled at the start of the version continuation; with the option unset, as
everywhere in this development, the two placements are indistinguishable.) -/

/-- The continuation token produced at the first await point. -/
inductive SyncK
  | finished (out : FnOut)
  | imageRest (fnKey : String) (fd : FunctionDefinition)
  | versionRest (fnKey : String) (fd : FunctionDefinition) (b : BuiltFunction)
  deriving DecidableEq

/-- The synchronous prefix of compileFunction (everything before its first
await point). -/
def compileFunctionSync (svc : Service) (st : CompileState) (fnKey : String) :
    CompileState × Except Err SyncK :=
  match getFunction svc fnKey with
  | none => (st, .error ⟨.functionNotFound, fnKey⟩)
  | some fd =>
    match validatePhase fd fnKey with
    | some e => (st, .error e)
    | none =>
      if (imageTruthy fd.image).isSome then (st, .ok (.imageRest fnKey fd))
      else
        match buildPhase svc st fnKey fd none with
        | (st1, .error e) => (st1, .error e)
        | (st1, .ok b) =>
          if versionCondition svc fd then (st1, .ok (.versionRest fnKey fd b))
          else
            match postOnly svc st1 fnKey fd with
            | (st2, .error e) => (st2, .error e)
            | (st2, .ok out) => (st2, .ok (.finished out))

/-- The continuation of compileFunction after its first await point. -/
def compileFunctionCont (svc : Service) (opts : CompileOptions) (fsys : Fsys)
    (st : CompileState) : SyncK → CompileState × Except Err FnOut
  | .finished out => (st, .ok out)
  | .imageRest fnKey fd =>
    match resolveImageUriAndSha svc fnKey with
    | .error e => (st, .error e)
    | .ok info =>
      match buildPhase svc st fnKey fd (some info) with
      | (st1, .error e) => (st1, .error e)
      | (st1, .ok b) => afterBuild svc opts fsys st1 fnKey fd b
  | .versionRest fnKey fd b => versionAndPost svc opts fsys st fnKey fd b

/-- compileFunction for a single function: the synchronous prefix followed
by its continuation. -/
def compileFunction (svc : Service) (opts : CompileOptions) (fsys : Fsys)
    (st : CompileState) (fnKey : String) : CompileState × Except Err FnOut :=
  match compileFunctionSync svc st fnKey with
  | (st1, .error e) => (st1, .error e)
  | (st1, .ok k) => compileFunctionCont svc opts fsys st1 k

/- ### The compileFunctions entry point -/

/-- All synchronous prefixes, in declaration order (Promise.all over map:
the map itself runs every async call synchronously up to its first await
before Promise.all is even constructed). -/
def runSyncs (svc : Service) (st : CompileState) :
    List String → CompileState × List (String × Except Err SyncK)
  | [] => (st, [])
  | k :: ks =>
    match compileFunctionSync svc st k with
    | (st1, r) =>
      match runSyncs svc st1 ks with
      | (st2, rest) => (st2, (k, r) :: rest)

/-- The continuations, in the order their awaited operations complete. -/
def runConts (svc : Service) (opts : CompileOptions) (fsys : Fsys)
    (syncResults : List (String × Except Err SyncK)) (st : CompileState) :
    List String → CompileState × List (String × Except Err FnOut)
  | [] => (st, [])
  | k :: ks =>
    match syncResults.lookup k with
    | some (.ok sk) =>
      match compileFunctionCont svc opts fsys st sk with
      | (st1, r) =>
        match runConts svc opts fsys syncResults st1 ks with
        | (st2, rest) => (st2, (k, r) :: rest)
    | some (.error e) =>
      match runConts svc opts fsys syncResults st ks with
      | (st2, rest) => (st2, (k, .error e) :: rest)
    | none => runConts svc opts fsys syncResults st ks

/-- The source compileFunctions: Promise.all over a map of the async
compileFunction calls.  Every synchronous prefix runs first, in declaration
order; the continuations then run in the order contOrder in which their
awaited file operations complete. -/
def compileFunctionsJsWith (svc : Service) (opts : CompileOptions) (fsys : Fsys)
    (st : CompileState) (contOrder : List String) :
    CompileState × List (String × Except Err FnOut) :=
  match runSyncs svc st (svc.functions.map (fun p => p.1)) with
  | (st1, srs) => runConts svc opts fsys srs st1 contOrder

/-- The source compileFunctions with the continuations completing in
declaration order. -/
def compileFunctionsJs (svc : Service) (opts : CompileOptions) (fsys : Fsys)
    (st : CompileState) : CompileState × List (String × Except Err FnOut) :=
  compileFunctionsJsWith svc opts fsys st (svc.functions.map (fun p => p.1))

/-- Modelled from the spec: compilation proceeds function by function,
sequentially — each function is fully compiled and awaited before the next
begins, aborting at the first fatal error. -/
def runSequentialSpec (svc : Service) (opts : CompileOptions) (fsys : Fsys)
    (st : CompileState) : List String → CompileState × List (String × Except Err FnOut)
  | [] => (st, [])
  | k :: ks =>
    match compileFunction svc opts fsys st k with
    | (st1, .error e) => (st1, [(k, .error e)])
    | (st1, .ok o) =>
      match runSequentialSpec svc opts fsys st1 ks with
      | (st2, rest) => (st2, (k, .ok o) :: rest)

/-- Modelled from the spec: the sequential compileFunctions the spec
describes. -/
def compileFunctionsSequentialSpec (svc : Service) (opts : CompileOptions) (fsys : Fsys)
    (st : CompileState) : CompileState × List (String × Except Err FnOut) :=
  runSequentialSpec svc opts fsys st (svc.functions.map (fun p => p.1))

/- ### Concrete fixtures shared by the witnesses and counterexamples -/

/-- A minimal handler function definition with every optional setting
absent. -/
def baseFn (n : String) : FunctionDefinition :=
  { name := n, handler := some "index.handler", image := none, memorySize := none,
    timeout := none, runtime := none, runtimeManagement := none, architecture := none,
    description := none, condition := none, dependsOn := none, tags := none,
    ephemeralStorageSize := none, onError := none, kmsKeyArn := none, tracing := none,
    environment := none, role := none, vpc := .unset, fileSystemConfig := none,
    reservedConcurrency := none, disableLogs := false, layers := none,
    versionFunction := none, provisionedConcurrency := none, snapStart := false,
    url := none, destinations := none, maximumEventAge := none,
    maximumRetryAttempts := none, packageArtifact := none, packageIndividually := false }

/-- A minimal aws provider with versioning defaulted on (as the plugin
constructor leaves it). -/
def baseProvider : ProviderConfig :=
  { name := "aws", memorySize := none, timeout := none, runtime := none,
    architecture := none, tags := none, environment := none, tracingLambda := none,
    kmsKeyArn := none, role := none, vpc := none, layers := none,
    versionFunctions := some true, lambdaHashingVersion := none }

/-- A minimal service around the given function list. -/
def baseService (fns : List (String × FunctionDefinition)) : Service :=
  { serviceName := "svc", provider := baseProvider, functions := fns,
    packageArtifact := none, packageIndividually := false, packageDeploymentBucket := none,
    packageArtifactDirectoryName := "serverless/svc/dev", serviceArtifact := none,
    serviceDir := "/proj", images := [] }

/-- The default execution role pre-seeded by collaborators, with an empty
statement list. -/
def iamRoleResource : Resource := ⟨"AWS::IAM::Role", .iamRole [], [], none, none, none⟩

/-- The pre-seeded initial template state. -/
def baseState : CompileState :=
  { resources := [("IamRoleLambdaExecution", iamRoleResource)], outputs := [], destCache := [] }

/-- The service package artifact produced by packaging. -/
def baseFsys : Fsys := [("/proj/.serverless/svc.zip", "ZIPBYTES")]

/-- Options with the enforce-hash-update flag unset. -/
def optsF : CompileOptions := ⟨false⟩

/-- Whether an Except value is a success. -/
def isOkB {ε α : Type} : Except ε α → Bool
  | .ok _ => true
  | .error _ => false

/-- A function with reservedConcurrency explicitly 0. -/
def fnRC0 : FunctionDefinition := { baseFn "fnA" with reservedConcurrency := some 0 }

/-- A CORS configuration with origins nulled, headers absent and a method
list with a duplicate. -/
def corsCfg0 : CorsConfig :=
  ⟨.null, .absent, .list ["GET", "GET", "POST"], false, none, none⟩

/-- A function with a url and the corsCfg0 CORS override. -/
def fnUrl0 : FunctionDefinition :=
  { baseFn "fnA" with url := some (.ucfg ⟨none, some (.cobj corsCfg0), none⟩) }

/-- A function with both provisioned concurrency and SnapStart. -/
def fnC8 : FunctionDefinition :=
  { baseFn "fnA" with provisionedConcurrency := some 2, snapStart := true }

/-- A function with both handler and image set. -/
def fnBoth : FunctionDefinition := { baseFn "fnA" with image := some (.uri "repo@sha256") }

/-- A function with neither handler nor image set. -/
def fnNeither : FunctionDefinition := { baseFn "fnA" with handler := none }

/-- A function with versioning disabled but provisioned concurrency set: a
version is still minted for the alias to point at. -/
def fnC2 : FunctionDefinition :=
  { baseFn "fnA" with versionFunction := some false, provisionedConcurrency := some 5 }

/-- A fully qualified sqs destination ARN. -/
def sqsArn : String := "arn:aws:sqs:us-east-1:123456789012:queue"

/-- A function whose asynchronous on-success destination is the sqs queue,
given as a string. -/
def fnDest (n : String) : FunctionDefinition :=
  { baseFn n with destinations := some ⟨some (.str sqsArn), none⟩ }

/-- Two functions declaring the same string destination. -/
def svcC3str : Service :=
  baseService [("fnA", fnDest "svc-dev-fnA"), ("fnB", fnDest "svc-dev-fnB")]

/-- One function whose on-success and on-failure destinations are two
distinct configuration objects with identical content (deep-equal, different
reference identity). -/
def fnDestObjs : FunctionDefinition :=
  { baseFn "fnA" with
    destinations := some ⟨some (.obj 1 (some "sqs") sqsArn), some (.obj 2 (some "sqs") sqsArn)⟩ }

def svcC3obj : Service := baseService [("fnA", fnDestObjs)]

/-- Two plain handler functions, for observing the processing order. -/
def svcC4 : Service :=
  baseService [("fnA", baseFn "svc-dev-fnA"), ("fnB", baseFn "svc-dev-fnB")]

/-- The version digest a compilation returns for the function fnA. -/
def digC9 (svc : Service) (fsys : Fsys) : Option VersionDigest :=
  ((compileFunction svc optsF fsys baseState "fnA").2.toOption.getD
    ⟨none, none, none⟩).versionDigest

/-- The base function with a tag list and a reserved concurrency count. -/
def fnTagsRc : FunctionDefinition :=
  { baseFn "fnA" with tags := some [("team", "x")], reservedConcurrency := some 7 }

/-- The base service with the deployment package at a different location. -/
def svcMoved : Service :=
  { baseService [("fnA", baseFn "fnA")] with
    serviceDir := "/other", packageArtifactDirectoryName := "serverless/svc/dev2" }

/-- The moved artifact, byte for byte the same content. -/
def fsysMoved : Fsys := [("/other/.serverless/svc.zip", "ZIPBYTES")]

/-- The base function with a different memory size. -/
def fnMem : FunctionDefinition := { baseFn "fnA" with memorySize := some 2048 }

/-- A concrete compute resource property bag. -/
def propsProbe : FunctionProperties :=
  (buildFunctionProps (baseService [("fnA", baseFn "fnA")]) (baseFn "fnA") "fnA" none).props

/-- The initial template with a statement already present on the default
role: an unrelated difference the digest must not see. -/
def stSeeded : CompileState :=
  { resources := [("IamRoleLambdaExecution",
      ⟨"AWS::IAM::Role", .iamRole [⟨"Allow", .list ["logs:PutLogEvents"], .list ["*"]⟩],
       [], none, none, none⟩)],
    outputs := [], destCache := [] }

/- ### Shared lemmas about the state operations -/

theorem lookup_cons {β : Type} (k a : String) (b : β) (xs : List (String × β)) :
    List.lookup k ((a, b) :: xs) = if k = a then some b else List.lookup k xs := by
  by_cases h : k = a
  · subst h; simp [List.lookup]
  · have hb : (k == a) = false := by simpa using h
    simp [List.lookup, hb, h]

theorem lookup_jsObjSet {β : Type} (m : List (String × β)) (k k' : String) (v : β) :
    (jsObjSet m k v).lookup k' = if k' = k then some v else m.lookup k' := by
  induction m with
  | nil => rw [show jsObjSet [] k v = [(k, v)] from rfl, lookup_cons]
  | cons p ps ih =>
    obtain ⟨a, b⟩ := p
    by_cases hpk : a = k
    · subst hpk
      simp only [jsObjSet, if_pos rfl]
      by_cases h : k' = a <;> simp [lookup_cons, h]
    · simp only [jsObjSet, if_neg hpk]
      by_cases h : k' = a
      · subst h
        have : k' ≠ k := fun hc => hpk hc
        simp [lookup_cons, this]
      · by_cases h2 : k' = k
        · subst h2
          have hka : k' ≠ a := h
          simp [lookup_cons, hka, ih]
        · simp [lookup_cons, h, h2, ih]

theorem lookup_map_update {β : Type} (m : List (String × β)) (k k' : String) (f : β → β) :
    (m.map (fun p => if p.1 = k then (p.1, f p.2) else p)).lookup k' =
      if k' = k then (m.lookup k').map f else m.lookup k' := by
  induction m with
  | nil => simp [List.lookup]
  | cons p ps ih =>
    obtain ⟨a, b⟩ := p
    by_cases hpk : a = k
    · subst hpk
      by_cases h : k' = a <;> simp [lookup_cons, h, ih]
    · by_cases h : k' = a
      · subst h
        have : k' ≠ k := fun hc => hpk hc
        simp [lookup_cons, this, hpk]
      · by_cases h2 : k' = k
        · subst h2
          have hka : k' ≠ a := h
          simp [lookup_cons, hka, ih, hpk]
        · simp [lookup_cons, h, h2, ih, hpk]

theorem lookupRes_setRes (st : CompileState) (k id : String) (r : Resource) :
    lookupRes (setRes st k r) id = if id = k then some r else lookupRes st id := by
  simp [lookupRes, setRes, lookup_jsObjSet]

theorem lookupRes_updateRes (st : CompileState) (k id : String) (f : Resource → Resource) :
    lookupRes (updateRes st k f) id =
      if id = k then (lookupRes st id).map f else lookupRes st id := by
  simp [lookupRes, updateRes, lookup_map_update]

theorem lookupRes_setOutput (st : CompileState) (k id : String) (v : OutputValue) :
    lookupRes (setOutput st k v) id = lookupRes st id := rfl

theorem metaView_updateRes_props (st : CompileState) (k id : String)
    (f : Resource → Resource)
    (hf : ∀ r, (f r).rtype = r.rtype ∧ (f r).deletionPolicy = r.deletionPolicy) :
    metaView (updateRes st k f) id = metaView st id := by
  simp only [metaView, lookupRes_updateRes]
  by_cases h : id = k
  · simp only [h, if_pos rfl, Option.map_map]
    cases lookupRes st k with
    | none => rfl
    | some r => simp [Function.comp, (hf r).1, (hf r).2]
  · simp [h]

theorem metaView_setIamStatements (st : CompileState) (id : String)
    (stmts : List IamStatement) :
    metaView (setIamStatements st stmts) id = metaView st id :=
  metaView_updateRes_props st _ id _ (fun _ => ⟨rfl, rfl⟩)

theorem lookupRes_setIamStatements (st : CompileState) (id : String)
    (stmts : List IamStatement) (h : id ≠ "IamRoleLambdaExecution") :
    lookupRes (setIamStatements st stmts) id = lookupRes st id := by
  simp [setIamStatements, lookupRes_updateRes, h]

theorem metaView_pushIam (st : CompileState) (id : String) (s : IamStatement) :
    metaView (pushIam st s) id = metaView st id := by
  unfold pushIam
  cases iamStatementsOf st with
  | none => rfl
  | some cur => exact metaView_updateRes_props st _ id _ (fun r => ⟨rfl, rfl⟩)

theorem metaView_unionIam (st : CompileState) (id : String) (s : IamStatement) :
    metaView (unionIam st s) id = metaView st id := by
  unfold unionIam
  cases iamStatementsOf st with
  | none => rfl
  | some cur => exact metaView_updateRes_props st _ id _ (fun r => ⟨rfl, rfl⟩)

theorem lookupRes_pushIam (st : CompileState) (id : String) (s : IamStatement)
    (h : id ≠ "IamRoleLambdaExecution") :
    lookupRes (pushIam st s) id = lookupRes st id := by
  unfold pushIam
  cases iamStatementsOf st with
  | none => rfl
  | some cur => exact lookupRes_setIamStatements st id _ h

theorem lookupRes_unionIam (st : CompileState) (id : String) (s : IamStatement)
    (h : id ≠ "IamRoleLambdaExecution") :
    lookupRes (unionIam st s) id = lookupRes st id := by
  unfold unionIam
  cases iamStatementsOf st with
  | none => rfl
  | some cur => exact lookupRes_setIamStatements st id _ h

theorem sameMapKey_rfl (d : DestTarget) : sameMapKey d d = true := by
  cases d <;> simp [sameMapKey]

/- ### String inequality helpers for logical ids -/

theorem string_data_append (a b : String) : (a ++ b).data = a.data ++ b.data :=
  String.data_append a b

theorem append_right_ne (n a s b t : String)
    (h1 : ¬ a.data <+: b.data) (h2 : ¬ b.data <+: a.data) :
    n ++ a ++ s ≠ n ++ b ++ t := by
  intro he
  have hd : n.data ++ (a.data ++ s.data) = n.data ++ (b.data ++ t.data) := by
    have := congrArg String.data he
    simpa [string_data_append, List.append_assoc] using this
  have hd' : a.data ++ s.data = b.data ++ t.data := List.append_cancel_left hd
  have hpa : a.data <+: b.data ++ t.data := hd' ▸ List.prefix_append a.data s.data
  have hpb : b.data <+: b.data ++ t.data := List.prefix_append b.data t.data
  rcases List.prefix_or_prefix_of_prefix hpa hpb with h | h
  · exact h1 h
  · exact h2 h

theorem append_right_ne' (n a s b : String)
    (h1 : ¬ a.data <+: b.data) (h2 : ¬ b.data <+: a.data) :
    n ++ a ++ s ≠ n ++ b := by
  intro he
  apply append_right_ne n a s b "" h1 h2
  rw [he, String.append_empty]

theorem append_ne_const (a b c : String) (h : ¬ b.data <:+ c.data) : a ++ b ≠ c := by
  intro he
  apply h
  have hd : a.data ++ b.data = c.data := by
    have := congrArg String.data he
    simpa [string_data_append] using this
  exact hd ▸ List.suffix_append a.data b.data

/- ### Helpers for extracting concrete run results -/

theorem ok_of_isOkB {ε α : Type} (x : Except ε α) (h : isOkB x = true) : ∃ a, x = .ok a := by
  cases x with
  | ok a => exact ⟨a, rfl⟩
  | error e => simp [isOkB] at h

theorem append_ne_both (n a b : String)
    (h1 : ¬ a.data <+: b.data) (h2 : ¬ b.data <+: a.data) : n ++ a ≠ n ++ b := by
  intro he
  apply append_right_ne n a "" b "" h1 h2
  rw [String.append_empty, String.append_empty, he]

/- ### Characterization of buildPhase -/

theorem buildPhase_ok (svc : Service) (st : CompileState) (fnKey : String)
    (fd : FunctionDefinition) (ii : Option (String × String)) (stF : CompileState)
    (b : BuiltFunction) (h : buildPhase svc st fnKey fd ii = (stF, .ok b)) :
    b = buildFunctionProps svc fd fnKey ii ∧
    lookupRes stF (getLambdaLogicalId fnKey) =
      some ⟨"AWS::Lambda::Function", .lambdaFunction b.props, b.dependsOn, none, b.condition,
            none⟩ := by
  simp only [buildPhase] at h
  split at h
  · split at h
    · simp at h
    · rw [Prod.mk.injEq] at h
      obtain ⟨hst, hb⟩ := h
      replace hb : b = buildFunctionProps svc fd fnKey ii := by
        cases hb' : buildFunctionProps svc fd fnKey ii <;> simp_all
      subst hb
      refine ⟨rfl, ?_⟩
      rw [← hst]
      simp [insertFunctionResource, lookupRes_setRes]
  · rw [Prod.mk.injEq] at h
    obtain ⟨hst, hb⟩ := h
    replace hb : b = buildFunctionProps svc fd fnKey ii := by
      cases hb' : buildFunctionProps svc fd fnKey ii <;> simp_all
    subst hb
    refine ⟨rfl, ?_⟩
    rw [← hst]
    simp [insertFunctionResource, lookupRes_setRes]

theorem buildPhase_error (svc : Service) (st : CompileState) (fnKey : String)
    (fd : FunctionDefinition) (ii : Option (String × String)) (stF : CompileState)
    (e : Err) (h : buildPhase svc st fnKey fd ii = (stF, .error e)) :
    e = ⟨.fileSystemConfigMissingVpc, fnKey⟩ := by
  simp only [buildPhase] at h
  split at h
  · split at h
    · simp_all
    · simp at h
  · simp at h

/- ### C10 -/

/-- C10: for a function with reservedConcurrency set to the number 0, the
compiled compute resource carries ReservedConcurrentExecutions equal to 0
(the zero is not treated as absent); with reservedConcurrency unset the
compiled compute resource has no such property; and the compute resource the
build phase inserts into the template carries exactly the assembled property
bag. -/
theorem c10_reserved_concurrency (svc : Service) (st : CompileState) (fnKey : String)
    (fd : FunctionDefinition) (ii : Option (String × String)) :
    (fd.reservedConcurrency = some 0 →
      (buildFunctionProps svc fd fnKey ii).props.ReservedConcurrentExecutions = some 0) ∧
    (fd.reservedConcurrency = none →
      (buildFunctionProps svc fd fnKey ii).props.ReservedConcurrentExecutions = none) ∧
    (∀ stF b, buildPhase svc st fnKey fd ii = (stF, .ok b) →
      lookupRes stF (getLambdaLogicalId fnKey) =
        some ⟨"AWS::Lambda::Function",
              .lambdaFunction (buildFunctionProps svc fd fnKey ii).props,
              (buildFunctionProps svc fd fnKey ii).dependsOn, none,
              (buildFunctionProps svc fd fnKey ii).condition, none⟩) := by
  refine ⟨?_, ?_, ?_⟩
  · intro h
    simp [buildFunctionProps, intTruthy, h]
  · intro h
    simp [buildFunctionProps, intTruthy, h]
  · intro stF b h
    obtain ⟨hb, hl⟩ := buildPhase_ok svc st fnKey fd ii stF b h
    subst hb
    exact hl

/-- C10 witness. -/
theorem c10_reserved_concurrency_witness :
    (buildFunctionProps (baseService [("fnA", fnRC0)]) fnRC0 "fnA" none).props.ReservedConcurrentExecutions
        = some 0 ∧
    (buildFunctionProps (baseService [("fnA", baseFn "fnA")]) (baseFn "fnA")
        "fnA" none).props.ReservedConcurrentExecutions = none :=
  ⟨(c10_reserved_concurrency (baseService [("fnA", fnRC0)]) baseState "fnA" fnRC0 none).1
      (by decide),
   (c10_reserved_concurrency (baseService [("fnA", baseFn "fnA")]) baseState "fnA"
      (baseFn "fnA") none).2.1 (by decide)⟩

/- ### C7 -/

theorem buildCompiledCors_cobj (cf : CorsConfig) :
    buildCompiledCors (some (.cobj cf)) = some
      { AllowCredentials := if cf.allowCredentials then some true else none
        AllowHeaders :=
          match cf.allowedHeaders with
          | .list l => some (jsUniq l)
          | .null => none
          | .absent => some defaultAllowedHeaders
        AllowMethods :=
          match cf.allowedMethods with
          | .list l => some (jsUniq l)
          | .null => none
          | .absent => some ["*"]
        AllowOrigins :=
          match cf.allowedOrigins with
          | .list l => some (jsUniq l)
          | .null => none
          | .absent => some ["*"]
        ExposeHeaders := cf.exposedResponseHeaders.map jsUniq
        MaxAge := cf.maxAge } := rfl

/-- C7: for a URL configuration with CORS enabled, every CORS list field of
the compiled endpoint resource starts from the fixed default policy and is
overridden field by field: a supplied list replaces the default with that
list de-duplicated, an explicit null removes the field from the compiled
resource entirely, an absent field keeps the fixed default. -/
theorem c7_cors_override (st : CompileState) (fnKey : String) (fd : FunctionDefinition)
    (ta : Option TargetAlias) (u : UrlConfig) (cf : CorsConfig)
    (hurl : fd.url = some (.ucfg u)) (hcors : u.cors = some (.cobj cf)) :
    ∃ r p c,
      lookupRes (compileFunctionUrl st fnKey fd ta) (getLambdaFunctionUrlLogicalId fnKey) =
          some r ∧
      r.props = .lambdaUrl p ∧ p.Cors = some c ∧
      (∀ l, cf.allowedOrigins = .list l → c.AllowOrigins = some (jsUniq l)) ∧
      (cf.allowedOrigins = .null → c.AllowOrigins = none) ∧
      (cf.allowedOrigins = .absent → c.AllowOrigins = some ["*"]) ∧
      (∀ l, cf.allowedHeaders = .list l → c.AllowHeaders = some (jsUniq l)) ∧
      (cf.allowedHeaders = .null → c.AllowHeaders = none) ∧
      (cf.allowedHeaders = .absent → c.AllowHeaders = some defaultAllowedHeaders) ∧
      (∀ l, cf.allowedMethods = .list l → c.AllowMethods = some (jsUniq l)) ∧
      (cf.allowedMethods = .null → c.AllowMethods = none) ∧
      (cf.allowedMethods = .absent → c.AllowMethods = some ["*"]) := by
  have hperm : getLambdaFnUrlPermissionLogicalId fnKey ≠ getLambdaFunctionUrlLogicalId fnKey := by
    unfold getLambdaFnUrlPermissionLogicalId getLambdaFunctionUrlLogicalId
    exact append_ne_both fnKey "LambdaFnUrlPermission" "LambdaFunctionUrl" (by decide) (by decide)
  have hlook : lookupRes (compileFunctionUrl st fnKey fd ta) (getLambdaFunctionUrlLogicalId fnKey)
      = some ⟨"AWS::Lambda::Url",
          .lambdaUrl ⟨(if u.authorizer = some "aws_iam" then "AWS_IAM" else "NONE"),
            resolveLambdaTarget fnKey ta, buildCompiledCors (some (.cobj cf)),
            (if u.invokeMode = some "RESPONSE_STREAM" then u.invokeMode else none)⟩,
          (match ta with | some a => [a.logicalId] | none => []), none, none, none⟩ := by
    simp only [compileFunctionUrl, hurl, urlFields, hcors]
    split
    · rw [if_neg (by decide : ¬("AWS_IAM" : String) = "NONE"), lookupRes_setOutput,
        lookupRes_setRes, if_pos rfl]
    · rw [if_pos rfl, lookupRes_setRes, if_neg (fun h => hperm h.symm), lookupRes_setOutput, lookupRes_setRes,
        if_pos rfl]
  rw [buildCompiledCors_cobj] at hlook
  refine ⟨_, _, _, hlook, rfl, rfl, ?_, ?_, ?_, ?_, ?_, ?_, ?_, ?_, ?_⟩
  all_goals first
    | (intro l hl; simp [hl])
    | (intro hl; simp [hl])

/- ### Small resolution lemmas shared by several claims -/

theorem natTruthy_pos (n : Nat) (h : 0 < n) : natTruthy (some n) = some n := by
  cases n with
  | zero => omega
  | succ m => rfl

theorem buildFunctionProps_artifact (svc : Service) (fd : FunctionDefinition) (fnKey : String)
    (hh : (strTruthy fd.handler).isSome = true) :
    (buildFunctionProps svc fd fnKey none).artifactFilePath =
      some (resolveArtifactFilePath svc fd fnKey) := by
  simp [buildFunctionProps, hh]

theorem buildFunctionProps_imageSha_none (svc : Service) (fd : FunctionDefinition)
    (fnKey : String) : (buildFunctionProps svc fd fnKey none).imageSha = none := by
  simp [buildFunctionProps]

theorem buildFunctionProps_layers_none (svc : Service) (fd : FunctionDefinition)
    (fnKey : String) (ii : Option (String × String))
    (h1 : fd.layers = none) (h2 : svc.provider.layers = none) :
    (buildFunctionProps svc fd fnKey ii).props.Layers = none := by
  simp [buildFunctionProps, h1, h2]

theorem extract_layers_none (props : FunctionProperties) (st : CompileState)
    (h : props.Layers = none) :
    extractLayerConfigurationsFromFunction props st = [] := by
  simp [extractLayerConfigurationsFromFunction, h]

/-- C7 witness. -/
theorem c7_cors_override_witness :
    ∃ r p c,
      lookupRes (compileFunctionUrl baseState "fnA" fnUrl0 none)
          (getLambdaFunctionUrlLogicalId "fnA") = some r ∧
      r.props = .lambdaUrl p ∧ p.Cors = some c ∧
      c.AllowOrigins = none ∧ c.AllowMethods = some ["GET", "POST"] ∧
      c.AllowHeaders = some defaultAllowedHeaders := by
  obtain ⟨r, p, c, h1, h2, h3, _, hnull, _, _, _, habs, hlist, _, _⟩ :=
    c7_cors_override baseState "fnA" fnUrl0 none
      ⟨none, some (.cobj corsCfg0), none⟩ corsCfg0 (by decide) (by decide)
  exact ⟨r, p, c, h1, h2, h3, hnull (by decide), by rw [hlist ["GET", "GET", "POST"] (by decide)]; decide,
    habs (by decide)⟩

/- ### State lookup preservation through the phases -/

theorem lookupRes_applyDeadLetterIam (st : CompileState) (d : Option ArnLike) (id : String)
    (h : id ≠ "IamRoleLambdaExecution") :
    lookupRes (applyDeadLetterIam st d) id = lookupRes st id := by
  unfold applyDeadLetterIam
  split
  · exact lookupRes_pushIam st id _ h
  · rfl

theorem lookupRes_applyKmsIam (st : CompileState) (k : Option ArnLike) (id : String)
    (h : id ≠ "IamRoleLambdaExecution") :
    lookupRes (applyKmsIam st k) id = lookupRes st id := by
  unfold applyKmsIam
  split
  · exact lookupRes_unionIam st id _ h
  · rfl

theorem lookupRes_applyTracingIam (st : CompileState) (t : Option String) (id : String)
    (h : id ≠ "IamRoleLambdaExecution") :
    lookupRes (applyTracingIam st t) id = lookupRes st id := by
  unfold applyTracingIam
  split
  · exact lookupRes_unionIam st id _ h
  · rfl

theorem lookupRes_applyFsIam (st : CompileState) (c : FileSystemCfg) (id : String)
    (h : id ≠ "IamRoleLambdaExecution") :
    lookupRes (applyFsIam st c) id = lookupRes st id :=
  lookupRes_pushIam st id _ h

theorem buildPhase_snd_of_fs_none (svc : Service) (st : CompileState) (fnKey : String)
    (fd : FunctionDefinition) (ii : Option (String × String))
    (hfs : fd.fileSystemConfig = none) :
    (buildPhase svc st fnKey fd ii).2 = .ok (buildFunctionProps svc fd fnKey ii) := by
  simp only [buildPhase, hfs]

theorem buildPhase_state_lookup (svc : Service) (st : CompileState) (fnKey : String)
    (fd : FunctionDefinition) (ii : Option (String × String)) (id : String)
    (h1 : id ≠ getLambdaLogicalId fnKey) (h2 : id ≠ "IamRoleLambdaExecution") :
    lookupRes (buildPhase svc st fnKey fd ii).1 id = lookupRes st id := by
  have base : ∀ (s : CompileState) (d k : Option ArnLike) (t : Option String),
      lookupRes (applyTracingIam (applyKmsIam (applyDeadLetterIam s d) k) t) id =
        lookupRes s id :=
    fun s d k t => by
      rw [lookupRes_applyTracingIam _ _ _ h2, lookupRes_applyKmsIam _ _ _ h2,
        lookupRes_applyDeadLetterIam _ _ _ h2]
  simp only [buildPhase]
  split
  · split
    · exact base st _ _ _
    · simp only [insertFunctionResource, lookupRes_setRes, if_neg h1]
      rw [lookupRes_applyFsIam _ _ _ h2]
      exact base st _ _ _
  · simp only [insertFunctionResource, lookupRes_setRes, if_neg h1]
    exact base st _ _ _

theorem versionCompute_simple (svc : Service) (opts : CompileOptions) (fsys : Fsys)
    (fd : FunctionDefinition) (b : BuiltFunction) (props0 : FunctionProperties)
    (content : String)
    (hsha : b.imageSha = none)
    (hart : fsys.lookup (b.artifactFilePath.getD "") = some content) :
    ∃ cs dg, versionCompute svc opts fsys fd b props0 [] = .ok (cs, dg) := by
  by_cases hleg : legacyHashing svc opts = true
  · exact ⟨fileHashOf content,
      [.fileBytes content,
       .snapshotJson (snapshotOfProps props0 (imageTruthy fd.image).isSome (.legacyByName []))],
      by simp [versionCompute, artifactHashStep, hsha, getHashForFilePath, hart, addFileToHash,
           hleg, getFileContents, hashLayerFiles, sortStrings, legacyLayerMap, Except.map]⟩
  · exact ⟨fileHashOf content,
      [.fileDigest (fileHashOf content),
       .snapshotJson (snapshotOfProps props0 (imageTruthy fd.image).isSome (.currentList []))],
      by simp [versionCompute, artifactHashStep, hsha, getHashForFilePath, hart, addFileToHash,
           hleg, hashLayerFiles, sortStrings, Except.map]⟩

theorem versionState0_lookup (opts : CompileOptions) (st : CompileState)
    (fnLogicalId id : String) (h : id ≠ fnLogicalId) :
    lookupRes (versionState0 opts st fnLogicalId) id = lookupRes st id := by
  unfold versionState0
  split
  · simp [updateFnProps, lookupRes_updateRes, h]
  · rfl

/-- In the conflicting-settings case the version phase fails with the
conflict error and leaves every entry other than the compute resource, the
version resource and the output untouched. -/
theorem versionPhase_conflict (svc : Service) (opts : CompileOptions) (fsys : Fsys)
    (st : CompileState) (fnKey : String) (fd : FunctionDefinition) (b : BuiltFunction)
    (n : Nat) (content : String)
    (hsha : b.imageSha = none)
    (hart : fsys.lookup (b.artifactFilePath.getD "") = some content)
    (hbL : b.props.Layers = none)
    (hpc : fd.provisionedConcurrency = some n) (hn : 0 < n) (hsnap : fd.snapStart = true) :
    (versionPhase svc opts fsys st fnKey fd b).2 =
      .error ⟨.provisionedConcurrencySnapStartConflict, fnKey⟩ ∧
    ∀ id, id ≠ getLambdaLogicalId fnKey → (∀ s, id ≠ getLambdaVersionLogicalId fnKey s) →
      lookupRes (versionPhase svc opts fsys st fnKey fd b).1 id = lookupRes st id := by
  have hlcs : extractLayerConfigurationsFromFunction (versionProps0 opts b)
      (versionState0 opts st (getLambdaLogicalId fnKey)) = [] := by
    apply extract_layers_none
    unfold versionProps0
    split
    · exact hbL
    · exact hbL
  obtain ⟨cs, dg, hvc⟩ :=
    versionCompute_simple svc opts fsys fd b (versionProps0 opts b) content hsha hart
  have hconf : ((natTruthy fd.provisionedConcurrency).isSome ∧ fd.snapStart = true) := by
    rw [hpc, natTruthy_pos n hn]
    exact ⟨rfl, hsnap⟩
  constructor
  · simp only [versionPhase, hlcs, hvc, versionApply]
    rw [if_pos hconf]
  · intro id hid1 hid2
    simp only [versionPhase, hlcs, hvc, versionApply]
    rw [if_pos hconf]
    simp only [lookupRes_setOutput, lookupRes_setRes,
      if_neg (hid2 (digestString dg)), versionState0_lookup opts st _ id hid1]

/- ### C8 -/

/-- C8: a function with both provisioned concurrency and SnapStart set makes
compilation fail with the conflicting-settings error naming the function,
and neither alias resource (the vehicle through which either setting is
applied) is ever inserted: the template entries at both alias logical ids
are untouched. -/
theorem c8_provisioned_snapstart_conflict (svc : Service) (opts : CompileOptions)
    (fsys : Fsys) (st : CompileState) (fnKey : String) (fd : FunctionDefinition)
    (n : Nat) (content : String)
    (hfd : getFunction svc fnKey = some fd)
    (hh : (strTruthy fd.handler).isSome = true) (hi : fd.image = none)
    (hfs : fd.fileSystemConfig = none)
    (hpc : fd.provisionedConcurrency = some n) (hn : 0 < n) (hsnap : fd.snapStart = true)
    (hlay : fd.layers = none) (hplay : svc.provider.layers = none)
    (hart : fsys.lookup (resolveArtifactFilePath svc fd fnKey) = some content) :
    ∀ stF r, compileFunction svc opts fsys st fnKey = (stF, r) →
      r = .error ⟨.provisionedConcurrencySnapStartConflict, fnKey⟩ ∧
      lookupRes stF (getLambdaProvisionedConcurrencyAliasLogicalId fnKey) =
        lookupRes st (getLambdaProvisionedConcurrencyAliasLogicalId fnKey) ∧
      lookupRes stF (getLambdaSnapStartAliasLogicalId fnKey) =
        lookupRes st (getLambdaSnapStartAliasLogicalId fnKey) := by
  intro stF r heq
  obtain ⟨hs, hhs⟩ := Option.isSome_iff_exists.mp hh
  have hval : validatePhase fd fnKey = none := by
    simp [validatePhase, hi, imageTruthy, hhs]
  have himg : (imageTruthy fd.image).isSome = false := by simp [hi, imageTruthy]
  have hvc : versionCondition svc fd = true := by simp [versionCondition, hsnap]
  have hsha : (buildFunctionProps svc fd fnKey none).imageSha = none :=
    buildFunctionProps_imageSha_none svc fd fnKey
  have hartB : fsys.lookup ((buildFunctionProps svc fd fnKey none).artifactFilePath.getD "")
      = some content := by
    rw [buildFunctionProps_artifact svc fd fnKey hh]
    exact hart
  have hbL : (buildFunctionProps svc fd fnKey none).props.Layers = none :=
    buildFunctionProps_layers_none svc fd fnKey none hlay hplay
  have hsplit : buildPhase svc st fnKey fd none =
      ((buildPhase svc st fnKey fd none).1, .ok (buildFunctionProps svc fd fnKey none)) := by
    conv_lhs => rw [← Prod.mk.eta (p := buildPhase svc st fnKey fd none)]
    rw [buildPhase_snd_of_fs_none svc st fnKey fd none hfs]
  generalize hbst : (buildPhase svc st fnKey fd none).1 = bst at hsplit
  have hsync : compileFunctionSync svc st fnKey =
      (bst, .ok (.versionRest fnKey fd (buildFunctionProps svc fd fnKey none))) := by
    simp [compileFunctionSync, hfd, hval, himg, hsplit, hvc]
  obtain ⟨hconf, hpres⟩ :=
    versionPhase_conflict svc opts fsys bst fnKey fd (buildFunctionProps svc fd fnKey none)
      n content hsha hartB hbL hpc hn hsnap
  have hphase : versionPhase svc opts fsys bst fnKey fd (buildFunctionProps svc fd fnKey none)
      = ((versionPhase svc opts fsys bst fnKey fd (buildFunctionProps svc fd fnKey none)).1,
         .error ⟨.provisionedConcurrencySnapStartConflict, fnKey⟩) := by
    conv_lhs => rw [← Prod.mk.eta
      (p := versionPhase svc opts fsys bst fnKey fd (buildFunctionProps svc fd fnKey none))]
    rw [hconf]
  generalize hvst :
    (versionPhase svc opts fsys bst fnKey fd (buildFunctionProps svc fd fnKey none)).1 = vst
    at hphase hpres
  have hcf : compileFunction svc opts fsys st fnKey =
      (vst, .error ⟨.provisionedConcurrencySnapStartConflict, fnKey⟩) := by
    simp [compileFunction, hsync, compileFunctionCont, versionAndPost, hphase]
  rw [hcf, Prod.mk.injEq] at heq
  obtain ⟨hst, hr⟩ := heq
  subst hst
  refine ⟨hr.symm, ?_, ?_⟩
  · rw [hpres (getLambdaProvisionedConcurrencyAliasLogicalId fnKey)
        (append_ne_both fnKey "ProvConcLambdaAlias" "LambdaFunction" (by decide) (by decide))
        (fun s h =>
          (append_right_ne' fnKey "LambdaVersion" s "ProvConcLambdaAlias" (by decide)
            (by decide)) h.symm),
      ← hbst,
      buildPhase_state_lookup svc st fnKey fd none
        (getLambdaProvisionedConcurrencyAliasLogicalId fnKey)
        (append_ne_both fnKey "ProvConcLambdaAlias" "LambdaFunction" (by decide) (by decide))
        (append_ne_const fnKey "ProvConcLambdaAlias" "IamRoleLambdaExecution" (by decide))]
  · rw [hpres (getLambdaSnapStartAliasLogicalId fnKey)
        (append_ne_both fnKey "SnapStartLambdaAlias" "LambdaFunction" (by decide) (by decide))
        (fun s h =>
          (append_right_ne' fnKey "LambdaVersion" s "SnapStartLambdaAlias" (by decide)
            (by decide)) h.symm),
      ← hbst,
      buildPhase_state_lookup svc st fnKey fd none
        (getLambdaSnapStartAliasLogicalId fnKey)
        (append_ne_both fnKey "SnapStartLambdaAlias" "LambdaFunction" (by decide) (by decide))
        (append_ne_const fnKey "SnapStartLambdaAlias" "IamRoleLambdaExecution" (by decide))]

/-- C8 witness. -/
theorem c8_provisioned_snapstart_conflict_witness :
    (compileFunction (baseService [("fnA", fnC8)]) optsF baseFsys baseState "fnA").2 =
      .error ⟨.provisionedConcurrencySnapStartConflict, "fnA"⟩ :=
  (c8_provisioned_snapstart_conflict (baseService [("fnA", fnC8)]) optsF baseFsys baseState
      "fnA" fnC8 2 "ZIPBYTES" (by decide) (by decide) (by decide) (by decide) (by decide)
      (by decide) (by decide) (by decide) (by decide) (by decide)
      (compileFunction (baseService [("fnA", fnC8)]) optsF baseFsys baseState "fnA").1
      (compileFunction (baseService [("fnA", fnC8)]) optsF baseFsys baseState "fnA").2
      rfl).1

/- ### Error codes reachable after validation -/

theorem classify_error_code (d : DestTarget) (e : Err)
    (h : classifyDestinationAction d = .error e) : e.code = .unsupportedDestinationTarget := by
  cases d with
  | obj i t a =>
    simp only [classifyDestinationAction] at h
    split at h <;> cases h <;> rfl
  | str s =>
    simp only [classifyDestinationAction] at h
    split at h
    · simp_all
    · split at h
      · simp_all
      · split at h
        · simp_all
        · split at h
          · simp_all
          · cases h
            rfl

theorem destArn_error_code (svc : Service) (d : DestTarget) (e : Err)
    (h : destinationResourceArn svc d = .error e) : e.code = .functionNotFound := by
  cases d with
  | obj i t a => simp [destinationResourceArn] at h
  | str s =>
    simp only [destinationResourceArn] at h
    split at h
    · simp_all
    · split at h
      · simp_all
      · cases h
        rfl

theorem ensureTarget_error_code (svc : Service) (st : CompileState) (d : DestTarget)
    (st' : CompileState) (e : Err)
    (h : ensureTargetExecutionPermission svc st d = (st', some e)) :
    e.code = .unsupportedDestinationTarget ∨ e.code = .functionNotFound ∨
      e.code = .missingIamRole := by
  unfold ensureTargetExecutionPermission at h
  split at h
  · simp_all
  · split at h
    · simp only [Prod.mk.injEq, Option.some.injEq] at h
      rw [← h.2]
      exact Or.inr (Or.inr rfl)
    · split at h
      · rename_i e' he
        simp only [Prod.mk.injEq, Option.some.injEq] at h
        rw [← h.2]
        exact Or.inl (classify_error_code d e' he)
      · split at h
        · rename_i e' he
          simp only [Prod.mk.injEq, Option.some.injEq] at h
          rw [← h.2]
          exact Or.inr (Or.inl (destArn_error_code svc d e' he))
        · simp_all

theorem destinationStep_error_code (svc : Service) (st : CompileState)
    (fd : FunctionDefinition) (target : Option DestTarget) (st' : CompileState) (e : Err)
    (h : destinationStep svc st fd target = (st', some e)) :
    e.code = .unsupportedDestinationTarget ∨ e.code = .functionNotFound ∨
      e.code = .missingIamRole := by
  unfold destinationStep at h
  split at h
  · simp_all
  · split at h
    · simp_all
    · exact ensureTarget_error_code svc st _ st' e h

theorem eventInvoke_error_code (svc : Service) (st : CompileState) (fnKey : String)
    (fd : FunctionDefinition) (ta : Option TargetAlias) (st' : CompileState) (e : Err)
    (h : compileFunctionEventInvokeConfig svc st fnKey fd ta = (st', some e)) :
    e.code = .unsupportedDestinationTarget ∨ e.code = .functionNotFound ∨
      e.code = .missingIamRole := by
  unfold compileFunctionEventInvokeConfig at h
  split at h
  · simp_all
  · split at h
    · rename_i st1 e1 hsucc
      simp only [Prod.mk.injEq, Option.some.injEq] at h
      rw [← h.2]
      exact destinationStep_error_code svc st fd _ st1 e1 hsucc
    · rename_i st1 hsucc
      split at h
      · rename_i st2 e2 hfail
        simp only [Prod.mk.injEq, Option.some.injEq] at h
        rw [← h.2]
        exact destinationStep_error_code svc st1 fd _ st2 e2 hfail
      · simp_all

theorem postVersionPhases_error_code (svc : Service) (st : CompileState) (fnKey : String)
    (fd : FunctionDefinition) (ta : Option TargetAlias) (st' : CompileState) (e : Err)
    (h : postVersionPhases svc st fnKey fd ta = (st', some e)) :
    e.code = .unsupportedDestinationTarget ∨ e.code = .functionNotFound ∨
      e.code = .missingIamRole := by
  unfold postVersionPhases at h
  exact eventInvoke_error_code svc _ fnKey fd ta st' e h

theorem getHash_error_code (fsys : Fsys) (p : String) (e : Err)
    (h : getHashForFilePath fsys p = .error e) : e.code = .missingFile := by
  unfold getHashForFilePath at h
  split at h
  · cases h
  · cases h
    rfl

theorem getContents_error_code (fsys : Fsys) (p : String) (e : Err)
    (h : getFileContents fsys p = .error e) : e.code = .missingFile := by
  unfold getFileContents at h
  split at h
  · cases h
  · cases h
    rfl

theorem addFileToHash_error_code (svc : Service) (opts : CompileOptions) (fsys : Fsys)
    (p : String) (e : Err) (h : addFileToHash svc opts fsys p = .error e) :
    e.code = .missingFile := by
  unfold addFileToHash at h
  split at h
  · cases hc : getFileContents fsys p with
    | error e' =>
      rw [hc] at h
      simp only [Except.map] at h
      cases h
      exact getContents_error_code fsys p _ hc
    | ok c => rw [hc] at h; simp [Except.map] at h
  · cases hc : getHashForFilePath fsys p with
    | error e' =>
      rw [hc] at h
      simp only [Except.map] at h
      cases h
      exact getHash_error_code fsys p _ hc
    | ok c => rw [hc] at h; simp [Except.map] at h

theorem hashLayerFiles_error_code (svc : Service) (opts : CompileOptions) (fsys : Fsys)
    (ps : List String) (e : Err) (h : hashLayerFiles svc opts fsys ps = .error e) :
    e.code = .missingFile := by
  induction ps with
  | nil => simp [hashLayerFiles] at h
  | cons p ps ih =>
    unfold hashLayerFiles at h
    split at h
    case h_1 e' he =>
      cases h
      exact addFileToHash_error_code svc opts fsys p _ he
    case h_2 c hc =>
      cases hr : hashLayerFiles svc opts fsys ps with
      | error e' =>
        rw [hr] at h
        simp only [Except.map] at h
        cases h
        exact ih hr
      | ok l => rw [hr] at h; simp [Except.map] at h

theorem artifactHashStep_error_code (svc : Service) (opts : CompileOptions) (fsys : Fsys)
    (b : BuiltFunction) (e : Err) (h : artifactHashStep svc opts fsys b = .error e) :
    e.code = .missingFile := by
  unfold artifactHashStep at h
  split at h
  · cases h
  · split at h
    · rename_i e' he
      cases h
      exact getHash_error_code fsys _ _ he
    · split at h
      · rename_i e' he
        cases h
        exact addFileToHash_error_code svc opts fsys _ _ he
      · cases h

theorem versionCompute_error_code (svc : Service) (opts : CompileOptions) (fsys : Fsys)
    (fd : FunctionDefinition) (b : BuiltFunction) (props0 : FunctionProperties)
    (lcs : List LayerSnapshotEntry) (e : Err)
    (h : versionCompute svc opts fsys fd b props0 lcs = .error e) : e.code = .missingFile := by
  unfold versionCompute at h
  split at h
  · rename_i e' he
    cases h
    exact artifactHashStep_error_code svc opts fsys b _ he
  · split at h
    · rename_i e' he
      cases h
      exact hashLayerFiles_error_code svc opts fsys _ _ he
    · cases h

theorem versionApply_error_code (svc : Service) (st0 : CompileState) (fnKey : String)
    (fd : FunctionDefinition) (cs : String) (dg : VersionDigest) (st' : CompileState)
    (e : Err) (h : versionApply svc st0 fnKey fd cs dg = (st', .error e)) :
    e.code = .provisionedConcurrencySnapStartConflict := by
  unfold versionApply at h
  split at h
  · simp only [Prod.mk.injEq, Except.error.injEq] at h
    rw [← h.2]
  · split at h
    · simp_all
    · split at h <;> simp_all

theorem versionPhase_error_code (svc : Service) (opts : CompileOptions) (fsys : Fsys)
    (st : CompileState) (fnKey : String) (fd : FunctionDefinition) (b : BuiltFunction)
    (st' : CompileState) (e : Err)
    (h : versionPhase svc opts fsys st fnKey fd b = (st', .error e)) :
    e.code = .missingFile ∨ e.code = .provisionedConcurrencySnapStartConflict := by
  simp only [versionPhase] at h
  split at h
  · rename_i e' he
    simp only [Prod.mk.injEq, Except.error.injEq] at h
    left
    rw [← h.2]
    exact versionCompute_error_code svc opts fsys fd b _ _ _ he
  · rename_i cs dg hvc
    right
    exact versionApply_error_code svc _ fnKey fd cs dg st' e h

theorem versionAndPost_error_code (svc : Service) (opts : CompileOptions) (fsys : Fsys)
    (st : CompileState) (fnKey : String) (fd : FunctionDefinition) (b : BuiltFunction)
    (st' : CompileState) (e : Err)
    (h : versionAndPost svc opts fsys st fnKey fd b = (st', .error e)) :
    e.code = .missingFile ∨ e.code = .provisionedConcurrencySnapStartConflict ∨
      e.code = .unsupportedDestinationTarget ∨ e.code = .functionNotFound ∨
      e.code = .missingIamRole := by
  unfold versionAndPost at h
  split at h
  case h_1 st1 e1 hv =>
    cases h
    rcases versionPhase_error_code svc opts fsys st fnKey fd b _ _ hv with h' | h'
    · exact Or.inl h'
    · exact Or.inr (Or.inl h')
  case h_2 st1 v hv =>
    split at h
    case h_1 st2 e2 hp =>
      cases h
      rcases postVersionPhases_error_code svc st1 fnKey fd v.targetAlias _ _ hp with h' | h' | h'
      · exact Or.inr (Or.inr (Or.inl h'))
      · exact Or.inr (Or.inr (Or.inr (Or.inl h')))
      · exact Or.inr (Or.inr (Or.inr (Or.inr h')))
    case h_2 => simp_all

theorem postOnly_error_code (svc : Service) (st : CompileState) (fnKey : String)
    (fd : FunctionDefinition) (st' : CompileState) (e : Err)
    (h : postOnly svc st fnKey fd = (st', .error e)) :
    e.code = .unsupportedDestinationTarget ∨ e.code = .functionNotFound ∨
      e.code = .missingIamRole := by
  unfold postOnly at h
  split at h
  case h_1 st1 e1 hp =>
    cases h
    exact postVersionPhases_error_code svc st fnKey fd none _ _ hp
  case h_2 => simp_all

/-- Every error code produced after the handler-or-image validation has
passed. -/
theorem afterBuild_error_code (svc : Service) (opts : CompileOptions) (fsys : Fsys)
    (st : CompileState) (fnKey : String) (fd : FunctionDefinition) (b : BuiltFunction)
    (st' : CompileState) (e : Err)
    (h : afterBuild svc opts fsys st fnKey fd b = (st', .error e)) :
    e.code = .missingFile ∨ e.code = .provisionedConcurrencySnapStartConflict ∨
      e.code = .unsupportedDestinationTarget ∨ e.code = .functionNotFound ∨
      e.code = .missingIamRole := by
  unfold afterBuild at h
  split at h
  · exact versionAndPost_error_code svc opts fsys st fnKey fd b st' e h
  · rcases postOnly_error_code svc st fnKey fd st' e h with h' | h' | h'
    · exact Or.inr (Or.inr (Or.inl h'))
    · exact Or.inr (Or.inr (Or.inr (Or.inl h')))
    · exact Or.inr (Or.inr (Or.inr (Or.inr h')))

theorem compileFunctionSync_eq_of (svc : Service) (st : CompileState) (fnKey : String)
    (fd : FunctionDefinition)
    (hfd : getFunction svc fnKey = some fd) (hval : validatePhase fd fnKey = none) :
    compileFunctionSync svc st fnKey =
      (if (imageTruthy fd.image).isSome then (st, .ok (.imageRest fnKey fd))
       else
         match buildPhase svc st fnKey fd none with
         | (st1, .error e) => (st1, .error e)
         | (st1, .ok b) =>
           if versionCondition svc fd then (st1, .ok (.versionRest fnKey fd b))
           else
             match postOnly svc st1 fnKey fd with
             | (st2, .error e) => (st2, .error e)
             | (st2, .ok out) => (st2, .ok (.finished out))) := by
  unfold compileFunctionSync
  simp only [hfd, hval]

theorem compileFunction_error_code_post_validation (svc : Service) (opts : CompileOptions)
    (fsys : Fsys) (st : CompileState) (fnKey : String) (fd : FunctionDefinition)
    (hfd : getFunction svc fnKey = some fd) (hval : validatePhase fd fnKey = none)
    (stF : CompileState) (e : Err)
    (h : compileFunction svc opts fsys st fnKey = (stF, .error e)) :
    e.code = .fileSystemConfigMissingVpc ∨ e.code = .imageUnresolved ∨
      e.code = .missingFile ∨ e.code = .provisionedConcurrencySnapStartConflict ∨
      e.code = .unsupportedDestinationTarget ∨ e.code = .functionNotFound ∨
      e.code = .missingIamRole := by
  unfold compileFunction at h
  split at h
  · rename_i st1 e1 hs
    cases h
    rw [compileFunctionSync_eq_of svc st fnKey fd hfd hval] at hs
    split at hs
    · simp_all
    · split at hs
      · rename_i st1a ea hb
        simp only [Prod.mk.injEq, Except.error.injEq] at hs
        rw [← hs.2]
        exact Or.inl (congrArg Err.code (buildPhase_error svc st fnKey fd none _ _ hb))
      · rename_i st1a b hb
        split at hs
        · simp_all
        · split at hs
          · rename_i st2 e2 hp
            simp only [Prod.mk.injEq, Except.error.injEq] at hs
            rw [← hs.2]
            rcases postOnly_error_code svc st1a fnKey fd _ _ hp with hc | hc | hc
            · exact Or.inr (Or.inr (Or.inr (Or.inr (Or.inl hc))))
            · exact Or.inr (Or.inr (Or.inr (Or.inr (Or.inr (Or.inl hc)))))
            · exact Or.inr (Or.inr (Or.inr (Or.inr (Or.inr (Or.inr hc)))))
          · simp_all
  · rename_i st1 k hs
    rw [compileFunctionSync_eq_of svc st fnKey fd hfd hval] at hs
    split at hs
    · simp only [Prod.mk.injEq, Except.ok.injEq] at hs
      obtain ⟨hst1, hk⟩ := hs
      subst hst1
      rw [← hk] at h
      simp only [compileFunctionCont] at h
      split at h
      · rename_i e1 hr
        simp only [Prod.mk.injEq, Except.error.injEq] at h
        rw [← h.2]
        unfold resolveImageUriAndSha at hr
        split at hr
        · cases hr
        · cases hr
          exact Or.inr (Or.inl rfl)
      · rename_i info hr
        split at h
        · rename_i st2 e2 hb
          cases h
          exact Or.inl (congrArg Err.code (buildPhase_error svc st fnKey fd (some info) _ _ hb))
        · rename_i st2 b hb
          rcases afterBuild_error_code svc opts fsys st2 fnKey fd b stF e h
            with hc | hc | hc | hc | hc
          · exact Or.inr (Or.inr (Or.inl hc))
          · exact Or.inr (Or.inr (Or.inr (Or.inl hc)))
          · exact Or.inr (Or.inr (Or.inr (Or.inr (Or.inl hc))))
          · exact Or.inr (Or.inr (Or.inr (Or.inr (Or.inr (Or.inl hc)))))
          · exact Or.inr (Or.inr (Or.inr (Or.inr (Or.inr (Or.inr hc)))))
    · split at hs
      · simp_all
      · rename_i st1a b hb
        split at hs
        · simp only [Prod.mk.injEq, Except.ok.injEq] at hs
          obtain ⟨hst1, hk⟩ := hs
          subst hst1
          rw [← hk] at h
          simp only [compileFunctionCont] at h
          rcases versionAndPost_error_code svc opts fsys st1a fnKey fd b stF e h
            with hc | hc | hc | hc | hc
          · exact Or.inr (Or.inr (Or.inl hc))
          · exact Or.inr (Or.inr (Or.inr (Or.inl hc)))
          · exact Or.inr (Or.inr (Or.inr (Or.inr (Or.inl hc))))
          · exact Or.inr (Or.inr (Or.inr (Or.inr (Or.inr (Or.inl hc)))))
          · exact Or.inr (Or.inr (Or.inr (Or.inr (Or.inr (Or.inr hc)))))
        · split at hs
          · simp_all
          · rename_i st2 out hp
            simp only [Prod.mk.injEq, Except.ok.injEq] at hs
            obtain ⟨hst1, hk⟩ := hs
            subst hst1
            rw [← hk] at h
            simp [compileFunctionCont] at h

/- ### C5 -/

/-- C5: compilation of a function with both handler and image set fails with
the both-set configuration error naming the function; with neither set it
fails with the distinct neither-set configuration error naming the function;
and when exactly one of the two is set, neither of those errors is ever
raised. -/
theorem c5_handler_image_validation (svc : Service) (opts : CompileOptions) (fsys : Fsys)
    (st : CompileState) (fnKey : String) (fd : FunctionDefinition)
    (hfd : getFunction svc fnKey = some fd) :
    ((strTruthy fd.handler).isSome = true ∧ (imageTruthy fd.image).isSome = true →
      compileFunction svc opts fsys st fnKey = (st, .error ⟨.bothHandlerAndImage, fnKey⟩)) ∧
    ((strTruthy fd.handler).isNone = true ∧ (imageTruthy fd.image).isNone = true →
      compileFunction svc opts fsys st fnKey = (st, .error ⟨.neitherHandlerNorImage, fnKey⟩)) ∧
    ErrCode.bothHandlerAndImage ≠ ErrCode.neitherHandlerNorImage ∧
    (((strTruthy fd.handler).isSome = true ↔ (imageTruthy fd.image).isNone = true) →
      ∀ stF e, compileFunction svc opts fsys st fnKey = (stF, .error e) →
        e.code ≠ .bothHandlerAndImage ∧ e.code ≠ .neitherHandlerNorImage) := by
  refine ⟨?_, ?_, by decide, ?_⟩
  · rintro ⟨h1, h2⟩
    obtain ⟨v1, hh1⟩ := Option.isSome_iff_exists.mp h1
    obtain ⟨v2, hh2⟩ := Option.isSome_iff_exists.mp h2
    have hv : validatePhase fd fnKey = some ⟨.bothHandlerAndImage, fnKey⟩ := by
      simp [validatePhase, hh1, hh2]
    simp [compileFunction, compileFunctionSync, hfd, hv]
  · rintro ⟨h1, h2⟩
    have hh1 : strTruthy fd.handler = none := by
      simpa [Option.isNone_iff_eq_none] using h1
    have hh2 : imageTruthy fd.image = none := by
      simpa [Option.isNone_iff_eq_none] using h2
    have hv : validatePhase fd fnKey = some ⟨.neitherHandlerNorImage, fnKey⟩ := by
      simp [validatePhase, hh1, hh2]
    simp [compileFunction, compileFunctionSync, hfd, hv]
  · intro hx stF e heq
    have hval : validatePhase fd fnKey = none := by
      cases hh : strTruthy fd.handler with
      | some v =>
        have hi : (imageTruthy fd.image).isNone = true := hx.mp (by simp [hh])
        have hi2 : imageTruthy fd.image = none := by
          simpa [Option.isNone_iff_eq_none] using hi
        simp [validatePhase, hh, hi2]
      | none =>
        have hi : ¬(imageTruthy fd.image).isNone = true := by
          intro hni
          have := hx.mpr hni
          simp [hh] at this
        obtain ⟨v, hv⟩ : ∃ v, imageTruthy fd.image = some v := by
          cases him : imageTruthy fd.image with
          | none => exact absurd (by simp [him]) hi
          | some v => exact ⟨v, rfl⟩
        simp [validatePhase, hh, hv]
    rcases compileFunction_error_code_post_validation svc opts fsys st fnKey fd hfd hval
        stF e heq with hc | hc | hc | hc | hc | hc | hc <;>
      exact ⟨by rw [hc]; decide, by rw [hc]; decide⟩

/-- C5 witness. -/
theorem c5_handler_image_validation_witness :
    compileFunction (baseService [("fnA", fnBoth)]) optsF baseFsys baseState "fnA" =
      (baseState, .error ⟨.bothHandlerAndImage, "fnA"⟩) ∧
    compileFunction (baseService [("fnA", fnNeither)]) optsF baseFsys baseState "fnA" =
      (baseState, .error ⟨.neitherHandlerNorImage, "fnA"⟩) :=
  ⟨(c5_handler_image_validation (baseService [("fnA", fnBoth)]) optsF baseFsys baseState
      "fnA" fnBoth (by decide)).1 ⟨by decide, by decide⟩,
   (c5_handler_image_validation (baseService [("fnA", fnNeither)]) optsF baseFsys baseState
      "fnA" fnNeither (by decide)).2.1 ⟨by decide, by decide⟩⟩

/- ### Ok-result characterization of the phases -/

theorem versionAndPost_ok_fields (svc : Service) (opts : CompileOptions) (fsys : Fsys)
    (st : CompileState) (fnKey : String) (fd : FunctionDefinition) (b : BuiltFunction)
    (stF : CompileState) (o : FnOut)
    (h : versionAndPost svc opts fsys st fnKey fd b = (stF, .ok o)) :
    ∃ v : VersionOut, o = ⟨some v.versionLogicalId, some v.versionDigest, v.targetAlias⟩ := by
  unfold versionAndPost at h
  split at h
  · simp_all
  · rename_i st1 v hv
    split at h
    · simp_all
    · simp only [Prod.mk.injEq, Except.ok.injEq] at h
      exact ⟨v, h.2.symm⟩

theorem postOnly_ok_fields (svc : Service) (st : CompileState) (fnKey : String)
    (fd : FunctionDefinition) (stF : CompileState) (o : FnOut)
    (h : postOnly svc st fnKey fd = (stF, .ok o)) : o = ⟨none, none, none⟩ := by
  unfold postOnly at h
  split at h
  · simp_all
  · simp only [Prod.mk.injEq, Except.ok.injEq] at h
    exact h.2.symm

theorem afterBuild_ok_versionSome (svc : Service) (opts : CompileOptions) (fsys : Fsys)
    (st : CompileState) (fnKey : String) (fd : FunctionDefinition) (b : BuiltFunction)
    (stF : CompileState) (o : FnOut)
    (h : afterBuild svc opts fsys st fnKey fd b = (stF, .ok o)) :
    o.versionLogicalId.isSome = versionCondition svc fd := by
  unfold afterBuild at h
  split at h
  · rename_i hvc
    obtain ⟨v, ho⟩ := versionAndPost_ok_fields svc opts fsys st fnKey fd b stF o h
    rw [ho, hvc]
    rfl
  · rename_i hvc
    rw [postOnly_ok_fields svc st fnKey fd stF o h]
    simp only [Bool.not_eq_true] at hvc
    rw [hvc]
    rfl

/-- The ok result of compileFunction records a version logical id exactly
when the version branch guard held. -/
theorem compileFunction_ok_versionSome (svc : Service) (opts : CompileOptions) (fsys : Fsys)
    (st : CompileState) (fnKey : String) (fd : FunctionDefinition)
    (hfd : getFunction svc fnKey = some fd) (stF : CompileState) (o : FnOut)
    (heq : compileFunction svc opts fsys st fnKey = (stF, .ok o)) :
    o.versionLogicalId.isSome = versionCondition svc fd := by
  unfold compileFunction at heq
  split at heq
  · simp_all
  · rename_i st1 k hs
    cases hv : validatePhase fd fnKey with
    | some e =>
      unfold compileFunctionSync at hs
      simp only [hfd, hv] at hs
      simp at hs
    | none =>
      rw [compileFunctionSync_eq_of svc st fnKey fd hfd hv] at hs
      split at hs
      · simp only [Prod.mk.injEq, Except.ok.injEq] at hs
        obtain ⟨hst1, hk⟩ := hs
        subst hst1
        rw [← hk] at heq
        simp only [compileFunctionCont] at heq
        split at heq
        · simp_all
        · rename_i info hr
          split at heq
          · simp_all
          · exact afterBuild_ok_versionSome svc opts fsys _ fnKey fd _ stF o heq
      · split at hs
        · simp_all
        · rename_i st1a b hb
          split at hs
          · rename_i hvc
            simp only [Prod.mk.injEq, Except.ok.injEq] at hs
            obtain ⟨hst1, hk⟩ := hs
            subst hst1
            rw [← hk] at heq
            simp only [compileFunctionCont] at heq
            obtain ⟨v, ho⟩ := versionAndPost_ok_fields svc opts fsys st1a fnKey fd b stF o heq
            rw [ho, hvc]
            rfl
          · rename_i hvc
            split at hs
            · simp_all
            · rename_i st2 out hp
              simp only [Prod.mk.injEq, Except.ok.injEq] at hs
              obtain ⟨hst1, hk⟩ := hs
              subst hst1
              rw [← hk] at heq
              simp only [compileFunctionCont, Prod.mk.injEq, Except.ok.injEq] at heq
              rw [← heq.2, postOnly_ok_fields svc st1a fnKey fd st2 out hp]
              simp only [Bool.not_eq_true] at hvc
              rw [hvc]
              rfl

/- ### C6 -/

/-- C6: under a well-formed provisioned-concurrency setting (absent or
positive, as the configuration schema requires), a successful compilation
mints an immutable version if and only if versioning is enabled (the
function level versionFunction override when set, else the provider level
versionFunctions flag) or provisioned concurrency is set or the SnapStart
flag is set; and the provider level flag itself defaults to on for an aws
provider (the plugin constructor). -/
theorem c6_version_condition (svc : Service) (opts : CompileOptions) (fsys : Fsys)
    (st : CompileState) (fnKey : String) (fd : FunctionDefinition) (stF : CompileState)
    (o : FnOut)
    (hfd : getFunction (normalizeService svc) fnKey = some fd)
    (hpc : fd.provisionedConcurrency = none ∨
      ∃ n, 0 < n ∧ fd.provisionedConcurrency = some n)
    (heq : compileFunction (normalizeService svc) opts fsys st fnKey = (stF, .ok o)) :
    (o.versionLogicalId.isSome = true ↔
      (shouldVersionFunction (normalizeService svc) fd = true ∨
       fd.provisionedConcurrency.isSome = true ∨ fd.snapStart = true)) ∧
    (svc.provider.name = "aws" → svc.provider.versionFunctions = none →
      fd.versionFunction = none → shouldVersionFunction (normalizeService svc) fd = true) := by
  constructor
  · rw [compileFunction_ok_versionSome (normalizeService svc) opts fsys st fnKey fd hfd stF o
      heq]
    have hnat : (natTruthy fd.provisionedConcurrency).isSome = fd.provisionedConcurrency.isSome := by
      rcases hpc with h | ⟨n, hn, h⟩
      · rw [h]; rfl
      · rw [h, natTruthy_pos n hn]
    unfold versionCondition
    rw [hnat]
    simp [Bool.or_eq_true, or_assoc]
  · intro h1 h2 h3
    simp [shouldVersionFunction, normalizeService, h1, h2, h3]

/-- C6 witness. -/
theorem c6_version_condition_witness :
    ∃ stF o,
      compileFunction (normalizeService (baseService [("fnA", baseFn "fnA")])) optsF baseFsys
          baseState "fnA" = (stF, .ok o) ∧
      (o.versionLogicalId.isSome = true ↔
        (shouldVersionFunction (normalizeService (baseService [("fnA", baseFn "fnA")]))
            (baseFn "fnA") = true ∨
         (baseFn "fnA").provisionedConcurrency.isSome = true ∨
         (baseFn "fnA").snapStart = true)) := by
  obtain ⟨o, ho⟩ := ok_of_isOkB
    (compileFunction (normalizeService (baseService [("fnA", baseFn "fnA")])) optsF baseFsys
      baseState "fnA").2 (by decide)
  have heq : compileFunction (normalizeService (baseService [("fnA", baseFn "fnA")])) optsF
      baseFsys baseState "fnA" =
      ((compileFunction (normalizeService (baseService [("fnA", baseFn "fnA")])) optsF baseFsys
        baseState "fnA").1, .ok o) := by
    rw [← ho]
  exact ⟨_, o, heq,
    (c6_version_condition (baseService [("fnA", baseFn "fnA")]) optsF baseFsys baseState "fnA"
      (baseFn "fnA") _ o (by decide) (Or.inl (by decide)) heq).1⟩

/- ### MetaView preservation through the post-version phases -/

theorem metaView_setRes (st : CompileState) (k id : String) (r : Resource) :
    metaView (setRes st k r) id =
      if id = k then some (r.rtype, r.deletionPolicy) else metaView st id := by
  simp only [metaView, lookupRes_setRes]
  by_cases h : id = k <;> simp [h]

theorem metaView_setOutput (st : CompileState) (k id : String) (v : OutputValue) :
    metaView (setOutput st k v) id = metaView st id := rfl

theorem metaView_updateRes_self (st : CompileState) (k : String) (f : Resource → Resource) :
    metaView (updateRes st k f) k =
      (lookupRes st k).map (fun r => ((f r).rtype, (f r).deletionPolicy)) := by
  simp [metaView, lookupRes_updateRes]
  cases lookupRes st k <;> rfl

theorem metaView_updateFnProps (st : CompileState) (k : String)
    (f : FunctionProperties → FunctionProperties) (id : String) :
    metaView (updateFnProps st k f) id = metaView st id := by
  apply metaView_updateRes_props
  intro r
  constructor <;> cases r.props <;> rfl

theorem metaView_ensureTargetExecutionPermission (svc : Service) (st : CompileState)
    (d : DestTarget) (id : String) :
    metaView (ensureTargetExecutionPermission svc st d).1 id = metaView st id := by
  unfold ensureTargetExecutionPermission
  split
  · rfl
  · split
    · rfl
    · split
      · rfl
      · split
        · rfl
        · exact metaView_setIamStatements st id _

theorem metaView_destinationStep (svc : Service) (st : CompileState)
    (fd : FunctionDefinition) (target : Option DestTarget) (id : String) :
    metaView (destinationStep svc st fd target).1 id = metaView st id := by
  unfold destinationStep
  split
  · rfl
  · split
    · rfl
    · exact metaView_ensureTargetExecutionPermission svc st _ id

theorem metaView_compileFunctionUrl (st : CompileState) (fnKey : String)
    (fd : FunctionDefinition) (ta : Option TargetAlias) (id : String)
    (h1 : id ≠ getLambdaFunctionUrlLogicalId fnKey)
    (h2 : id ≠ getLambdaFnUrlPermissionLogicalId fnKey) :
    metaView (compileFunctionUrl st fnKey fd ta) id = metaView st id := by
  cases hu : fd.url with
  | none => simp only [compileFunctionUrl, hu]
  | some u =>
    simp only [compileFunctionUrl, hu]
    split
    · rw [if_neg (by decide : ¬ ("AWS_IAM" : String) = "NONE"), metaView_setOutput,
        metaView_setRes, if_neg h1]
    · rw [if_pos rfl, metaView_setRes, if_neg h2, metaView_setOutput, metaView_setRes,
        if_neg h1]

theorem metaView_compileFunctionEventInvokeConfig (svc : Service) (st : CompileState)
    (fnKey : String) (fd : FunctionDefinition) (ta : Option TargetAlias) (id : String)
    (h3 : id ≠ getLambdaEventConfigLogicalId fnKey) :
    metaView (compileFunctionEventInvokeConfig svc st fnKey fd ta).1 id = metaView st id := by
  unfold compileFunctionEventInvokeConfig
  split
  · rfl
  · split
    · rename_i st1 e h
      have h0 := metaView_destinationStep svc st fd
        (fd.destinations.bind (fun ds => ds.onSuccess)) id
      rw [h] at h0
      exact h0
    · rename_i st1 h
      have h0 := metaView_destinationStep svc st fd
        (fd.destinations.bind (fun ds => ds.onSuccess)) id
      rw [h] at h0
      split
      · rename_i st2 e h2'
        have hb := metaView_destinationStep svc st1 fd
          (fd.destinations.bind (fun ds => ds.onFailure)) id
        rw [h2'] at hb
        exact hb.trans h0
      · rename_i st2 h2'
        have hb := metaView_destinationStep svc st1 fd
          (fd.destinations.bind (fun ds => ds.onFailure)) id
        rw [h2'] at hb
        simp only
        rw [metaView_setRes, if_neg h3]
        exact hb.trans h0

theorem metaView_postVersionPhases (svc : Service) (st : CompileState) (fnKey : String)
    (fd : FunctionDefinition) (ta : Option TargetAlias) (id : String)
    (h1 : id ≠ getLambdaFunctionUrlLogicalId fnKey)
    (h2 : id ≠ getLambdaFnUrlPermissionLogicalId fnKey)
    (h3 : id ≠ getLambdaEventConfigLogicalId fnKey) :
    metaView (postVersionPhases svc st fnKey fd ta).1 id = metaView st id := by
  unfold postVersionPhases
  rw [metaView_compileFunctionEventInvokeConfig svc _ fnKey fd ta id h3,
    metaView_compileFunctionUrl st fnKey fd ta id h1 h2]

/- ### The version logical id against the other logical ids -/

theorem vid_ne_provAlias (fnKey d : String) :
    getLambdaVersionLogicalId fnKey d ≠ getLambdaProvisionedConcurrencyAliasLogicalId fnKey :=
  append_right_ne' fnKey "LambdaVersion" d "ProvConcLambdaAlias" (by decide) (by decide)

theorem vid_ne_snapAlias (fnKey d : String) :
    getLambdaVersionLogicalId fnKey d ≠ getLambdaSnapStartAliasLogicalId fnKey :=
  append_right_ne' fnKey "LambdaVersion" d "SnapStartLambdaAlias" (by decide) (by decide)

theorem vid_ne_fnId (fnKey d : String) :
    getLambdaVersionLogicalId fnKey d ≠ getLambdaLogicalId fnKey :=
  append_right_ne' fnKey "LambdaVersion" d "LambdaFunction" (by decide) (by decide)

theorem vid_ne_urlId (fnKey d : String) :
    getLambdaVersionLogicalId fnKey d ≠ getLambdaFunctionUrlLogicalId fnKey :=
  append_right_ne' fnKey "LambdaVersion" d "LambdaFunctionUrl" (by decide) (by decide)

theorem vid_ne_urlPerm (fnKey d : String) :
    getLambdaVersionLogicalId fnKey d ≠ getLambdaFnUrlPermissionLogicalId fnKey :=
  append_right_ne' fnKey "LambdaVersion" d "LambdaFnUrlPermission" (by decide) (by decide)

theorem vid_ne_evConf (fnKey d : String) :
    getLambdaVersionLogicalId fnKey d ≠ getLambdaEventConfigLogicalId fnKey :=
  append_right_ne' fnKey "LambdaVersion" d "LambdaEvConf" (by decide) (by decide)

/- ### The deletion policy of the minted version resource -/

theorem versionApply_version_meta (svc : Service) (st0 : CompileState) (fnKey : String)
    (fd : FunctionDefinition) (codeSha : String) (digest : VersionDigest)
    (st' : CompileState) (v : VersionOut)
    (hvc : versionCondition svc fd = true)
    (h : versionApply svc st0 fnKey fd codeSha digest = (st', .ok v)) :
    v.versionLogicalId = getLambdaVersionLogicalId fnKey (digestString digest) ∧
    metaView st' v.versionLogicalId =
      some ("AWS::Lambda::Version",
        if shouldVersionFunction svc fd then some "Retain" else none) := by
  simp only [versionApply] at h
  split at h
  · simp at h
  · split at h
    · -- provisioned concurrency branch
      simp only [Prod.mk.injEq, Except.ok.injEq] at h
      obtain ⟨hst, hv⟩ := h
      subst hst
      subst hv
      refine ⟨rfl, ?_⟩
      rw [metaView_setRes,
        if_neg (vid_ne_provAlias fnKey (digestString digest))]
      by_cases hsvf : shouldVersionFunction svc fd
      · simp [hsvf, metaView_setOutput, metaView_setRes]
      · have hf : shouldVersionFunction svc fd = false := by simpa using hsvf
        simp [hf, metaView_updateRes_self, lookupRes_setOutput, lookupRes_setRes]
    · split at h
      · -- snapStart branch
        simp only [Prod.mk.injEq, Except.ok.injEq] at h
        obtain ⟨hst, hv⟩ := h
        subst hst
        subst hv
        refine ⟨rfl, ?_⟩
        rw [metaView_setRes,
          if_neg (vid_ne_snapAlias fnKey (digestString digest)),
          metaView_updateFnProps]
        by_cases hsvf : shouldVersionFunction svc fd
        · simp [hsvf, metaView_setOutput, metaView_setRes]
        · have hf : shouldVersionFunction svc fd = false := by simpa using hsvf
          simp [hf, metaView_updateRes_self, lookupRes_setOutput, lookupRes_setRes]
      · -- plain version: here the guard forces versioning to be on
        rename_i hpc hsnap
        simp only [Prod.mk.injEq, Except.ok.injEq] at h
        obtain ⟨hst, hv⟩ := h
        subst hst
        subst hv
        have hsvf : shouldVersionFunction svc fd = true := by
          simp only [versionCondition, hpc, Bool.or_eq_true, Option.isSome_none] at hvc
          simpa [hsnap] using hvc
        refine ⟨rfl, ?_⟩
        simp [hsvf, metaView_setOutput, metaView_setRes]

theorem versionPhase_version_meta (svc : Service) (opts : CompileOptions) (fsys : Fsys)
    (st : CompileState) (fnKey : String) (fd : FunctionDefinition) (b : BuiltFunction)
    (st' : CompileState) (v : VersionOut)
    (hvc : versionCondition svc fd = true)
    (h : versionPhase svc opts fsys st fnKey fd b = (st', .ok v)) :
    (∃ d, v.versionLogicalId = getLambdaVersionLogicalId fnKey d) ∧
    metaView st' v.versionLogicalId =
      some ("AWS::Lambda::Version",
        if shouldVersionFunction svc fd then some "Retain" else none) := by
  simp only [versionPhase] at h
  split at h
  · simp at h
  · rename_i codeSha digest hc
    obtain ⟨h1, h2⟩ := versionApply_version_meta svc _ fnKey fd codeSha digest st' v hvc h
    exact ⟨⟨digestString digest, h1⟩, h2⟩

theorem versionAndPost_version_meta (svc : Service) (opts : CompileOptions) (fsys : Fsys)
    (st : CompileState) (fnKey : String) (fd : FunctionDefinition) (b : BuiltFunction)
    (stF : CompileState) (o : FnOut)
    (hvc : versionCondition svc fd = true)
    (h : versionAndPost svc opts fsys st fnKey fd b = (stF, .ok o))
    (vid : String) (hvid : o.versionLogicalId = some vid) :
    metaView stF vid =
      some ("AWS::Lambda::Version",
        if shouldVersionFunction svc fd then some "Retain" else none) := by
  unfold versionAndPost at h
  split at h
  · simp at h
  · rename_i st1 v hv
    split at h
    · simp at h
    · rename_i st2 hp
      simp only [Prod.mk.injEq, Except.ok.injEq] at h
      obtain ⟨hst, ho⟩ := h
      subst hst
      rw [← ho] at hvid
      simp only [Option.some.injEq] at hvid
      subst hvid
      obtain ⟨⟨d, hd⟩, hm⟩ := versionPhase_version_meta svc opts fsys st fnKey fd b st1 v
        hvc hv
      have hpres := metaView_postVersionPhases svc st1 fnKey fd v.targetAlias
        v.versionLogicalId
        (by rw [hd]; exact vid_ne_urlId fnKey d)
        (by rw [hd]; exact vid_ne_urlPerm fnKey d)
        (by rw [hd]; exact vid_ne_evConf fnKey d)
      rw [hp] at hpres
      rw [← hpres] at hm
      exact hm

theorem afterBuild_version_meta (svc : Service) (opts : CompileOptions) (fsys : Fsys)
    (st : CompileState) (fnKey : String) (fd : FunctionDefinition) (b : BuiltFunction)
    (stF : CompileState) (o : FnOut)
    (h : afterBuild svc opts fsys st fnKey fd b = (stF, .ok o))
    (vid : String) (hvid : o.versionLogicalId = some vid) :
    metaView stF vid =
      some ("AWS::Lambda::Version",
        if shouldVersionFunction svc fd then some "Retain" else none) := by
  unfold afterBuild at h
  split at h
  · rename_i hvc
    exact versionAndPost_version_meta svc opts fsys st fnKey fd b stF o hvc h vid hvid
  · rw [postOnly_ok_fields svc st fnKey fd stF o h] at hvid
    simp at hvid

/-- C2 (amended): a version resource minted by a successful compilation is
always of type AWS::Lambda::Version, and it carries the template DeletionPolicy
Retain exactly when versioning is enabled for the function
(shouldVersionFunction); when the version exists only because provisioned
concurrency or SnapStart forces an alias, the source deletes the DeletionPolicy
again, so retention does not hold for every minted version. -/
theorem c2_version_retention (svc : Service) (opts : CompileOptions) (fsys : Fsys)
    (st : CompileState) (fnKey : String) (fd : FunctionDefinition)
    (hfd : getFunction svc fnKey = some fd) (stF : CompileState) (o : FnOut)
    (heq : compileFunction svc opts fsys st fnKey = (stF, .ok o))
    (vid : String) (hvid : o.versionLogicalId = some vid) :
    metaView stF vid =
      some ("AWS::Lambda::Version",
        if shouldVersionFunction svc fd then some "Retain" else none) := by
  unfold compileFunction at heq
  split at heq
  · simp_all
  · rename_i st1 k hs
    cases hv : validatePhase fd fnKey with
    | some e =>
      unfold compileFunctionSync at hs
      simp only [hfd, hv] at hs
      simp at hs
    | none =>
      rw [compileFunctionSync_eq_of svc st fnKey fd hfd hv] at hs
      split at hs
      · simp only [Prod.mk.injEq, Except.ok.injEq] at hs
        obtain ⟨hst1, hk⟩ := hs
        subst hst1
        rw [← hk] at heq
        simp only [compileFunctionCont] at heq
        split at heq
        · simp_all
        · rename_i info hr
          split at heq
          · simp_all
          · exact afterBuild_version_meta svc opts fsys _ fnKey fd _ stF o heq vid hvid
      · split at hs
        · simp_all
        · rename_i st1a b hb
          split at hs
          · rename_i hvc
            simp only [Prod.mk.injEq, Except.ok.injEq] at hs
            obtain ⟨hst1, hk⟩ := hs
            subst hst1
            rw [← hk] at heq
            simp only [compileFunctionCont] at heq
            exact versionAndPost_version_meta svc opts fsys st1a fnKey fd b stF o hvc heq
              vid hvid
          · split at hs
            · simp_all
            · rename_i st2 out hp
              simp only [Prod.mk.injEq, Except.ok.injEq] at hs
              obtain ⟨hst1, hk⟩ := hs
              subst hst1
              rw [← hk] at heq
              simp only [compileFunctionCont, Prod.mk.injEq, Except.ok.injEq] at heq
              rw [← heq.2, postOnly_ok_fields svc st1a fnKey fd st2 out hp] at hvid
              simp at hvid

/-- C2 counterexample: with versionFunction false but provisionedConcurrency
set, a version resource is still minted and its DeletionPolicy is absent, not
Retain. -/
theorem c2_version_retention_counterexample :
    ∃ stF o,
      compileFunction (baseService [("fnA", fnC2)]) optsF baseFsys baseState "fnA" =
        (stF, .ok o) ∧
      o.versionLogicalId.map (fun vid => metaView stF vid) =
        some (some ("AWS::Lambda::Version", none)) := by
  refine ⟨(compileFunction (baseService [("fnA", fnC2)]) optsF baseFsys baseState "fnA").1,
    (compileFunction (baseService [("fnA", fnC2)]) optsF baseFsys baseState
        "fnA").2.toOption.getD ⟨none, none, none⟩, by rfl, by decide⟩

/-- C2 witness: with default versioning on, the minted version resource keeps
DeletionPolicy Retain. -/
theorem c2_version_retention_witness :
    ∃ stF o vid,
      compileFunction (baseService [("fnA", baseFn "fnA")]) optsF baseFsys baseState "fnA" =
        (stF, .ok o) ∧ o.versionLogicalId = some vid ∧
      metaView stF vid =
        some ("AWS::Lambda::Version",
          if shouldVersionFunction (baseService [("fnA", baseFn "fnA")]) (baseFn "fnA")
          then some "Retain" else none) := by
  have heq : compileFunction (baseService [("fnA", baseFn "fnA")]) optsF baseFsys baseState
      "fnA" =
      ((compileFunction (baseService [("fnA", baseFn "fnA")]) optsF baseFsys baseState
          "fnA").1,
        .ok ((compileFunction (baseService [("fnA", baseFn "fnA")]) optsF baseFsys baseState
            "fnA").2.toOption.getD ⟨none, none, none⟩)) := by rfl
  have hvid : ((compileFunction (baseService [("fnA", baseFn "fnA")]) optsF baseFsys baseState
          "fnA").2.toOption.getD ⟨none, none, none⟩).versionLogicalId =
      some (((compileFunction (baseService [("fnA", baseFn "fnA")]) optsF baseFsys baseState
          "fnA").2.toOption.getD ⟨none, none, none⟩).versionLogicalId.getD "") := by decide
  exact ⟨_, _, _, heq, hvid,
    c2_version_retention (baseService [("fnA", baseFn "fnA")]) optsF baseFsys baseState "fnA"
      (baseFn "fnA") (by decide) _ _ heq _ hvid⟩

/-- C3 (amended): the destination permission append is memoized on the target
with Map SameValueZero semantics, plugin wide.  (a) Repeating a target that
already succeeded is a no-op.  (b) Two deep-equal but distinct destination
objects of one function are two different cache keys and append two identical
permission statements (deep structural equality does not collapse them).
(c) The same string target requested by two different functions is one cache
key for the whole compilation and appends exactly one statement, not one per
function (the statement names the target ARN, not the requesting function). -/
theorem c3_destination_dedup :
    (∀ svc st st1 d, ensureTargetExecutionPermission svc st d = (st1, none) →
      ensureTargetExecutionPermission svc st1 d = (st1, none)) ∧
    iamStatementsOf (compileFunctionsJs svcC3obj optsF baseFsys baseState).1 =
      some [⟨"Allow", .single "sqs:SendMessage", .single sqsArn⟩,
            ⟨"Allow", .single "sqs:SendMessage", .single sqsArn⟩] ∧
    iamStatementsOf (compileFunctionsJs svcC3str optsF baseFsys baseState).1 =
      some [⟨"Allow", .single "sqs:SendMessage", .single sqsArn⟩] := by
  refine ⟨?_, by decide, by decide⟩
  intro svc st st1 d h
  unfold ensureTargetExecutionPermission at h ⊢
  split at h
  · rename_i hhit
    simp only [Prod.mk.injEq, and_true] at h
    subst h
    rw [if_pos hhit]
  · split at h
    · simp at h
    · split at h
      · simp at h
      · split at h
        · simp at h
        · simp only [Prod.mk.injEq, and_true] at h
          subst h
          rw [if_pos (by simp [setIamStatements, updateRes, sameMapKey_rfl])]

/-- C3 counterexample: the same string destination declared by two different
functions yields one single permission statement in the shared policy
document, not two function-scoped ones; and within one function two
deep-equal destination objects are not collapsed. -/
theorem c3_destination_dedup_counterexample :
    (iamStatementsOf (compileFunctionsJs svcC3str optsF baseFsys baseState).1).map
        List.length = some 1 ∧
    (iamStatementsOf (compileFunctionsJs svcC3obj optsF baseFsys baseState).1).map
        List.length = some 2 := by
  exact ⟨by decide, by decide⟩

/-- C3 witness: the idempotence conjunct at a concrete successful append. -/
theorem c3_destination_dedup_witness :
    ensureTargetExecutionPermission (baseService [])
        (ensureTargetExecutionPermission (baseService []) baseState (.str sqsArn)).1
        (.str sqsArn) =
      ((ensureTargetExecutionPermission (baseService []) baseState (.str sqsArn)).1, none) :=
  c3_destination_dedup.1 (baseService []) baseState _ (.str sqsArn) (by decide)

/-- C4 (amended): compileFunctions is Promise.all over a map of async calls,
not a sequential loop.  The map starts every compilation synchronously up to
its first await, so every synchronous prefix (which inserts the compute
resource) runs before any continuation (which inserts the version resource),
whatever order the awaited file operations complete in; a sequential
function-by-function run would interleave them.  Mutations of the shared
resource graph by different functions therefore do interleave. -/
theorem c4_sequential_processing (order : List String)
    (horder : order = ["fnA", "fnB"] ∨ order = ["fnB", "fnA"]) :
    ((compileFunctionsJsWith svcC4 optsF baseFsys baseState order).1.resources.map
        (fun p => p.2.rtype)) =
      ["AWS::IAM::Role", "AWS::Lambda::Function", "AWS::Lambda::Function",
       "AWS::Lambda::Version", "AWS::Lambda::Version"] ∧
    ((compileFunctionsSequentialSpec svcC4 optsF baseFsys baseState).1.resources.map
        (fun p => p.2.rtype)) =
      ["AWS::IAM::Role", "AWS::Lambda::Function", "AWS::Lambda::Version",
       "AWS::Lambda::Function", "AWS::Lambda::Version"] := by
  rcases horder with h | h <;> subst h <;> exact ⟨by decide, by decide⟩

/-- C4 counterexample: the source compileFunctions and the sequential
function-by-function run the spec describes produce observably different
states on two plain functions. -/
theorem c4_sequential_processing_counterexample :
    (compileFunctionsJs svcC4 optsF baseFsys baseState).1 ≠
      (compileFunctionsSequentialSpec svcC4 optsF baseFsys baseState).1 := by
  decide

/-- C4 witness. -/
theorem c4_sequential_processing_witness :
    ((compileFunctionsJsWith svcC4 optsF baseFsys baseState ["fnA", "fnB"]).1.resources.map
        (fun p => p.2.rtype)) =
      ["AWS::IAM::Role", "AWS::Lambda::Function", "AWS::Lambda::Function",
       "AWS::Lambda::Version", "AWS::Lambda::Version"] ∧
    ((compileFunctionsSequentialSpec svcC4 optsF baseFsys baseState).1.resources.map
        (fun p => p.2.rtype)) =
      ["AWS::IAM::Role", "AWS::Lambda::Function", "AWS::Lambda::Version",
       "AWS::Lambda::Function", "AWS::Lambda::Version"] :=
  c4_sequential_processing ["fnA", "fnB"] (Or.inl rfl)

/-- C9: the canonical snapshot structurally drops the tag list and the
reserved concurrency count (and, for handler based functions, the whole Code
location block), so changing any of them — or moving the deployment package
to a different location with unchanged bytes — leaves the computed
VersionDigest unchanged; changing a snapshotted property such as the memory
size changes the snapshot and, concretely, the digest. -/
theorem c9_digest_sensitivity :
    (∀ (p : FunctionProperties) (img : Bool) (lay : SnapshotLayers)
        (t : Option (List (String × String))) (r : Option Int),
      snapshotOfProps { p with Tags := t, ReservedConcurrentExecutions := r } img lay =
        snapshotOfProps p img lay) ∧
    (∀ (p : FunctionProperties) (lay : SnapshotLayers) (c : CodeProps),
      snapshotOfProps { p with Code := c } false lay = snapshotOfProps p false lay) ∧
    (∀ (p : FunctionProperties) (img : Bool) (lay : SnapshotLayers) (m : Option Nat),
      m ≠ p.MemorySize →
      snapshotOfProps { p with MemorySize := m } img lay ≠ snapshotOfProps p img lay) ∧
    digC9 (baseService [("fnA", fnTagsRc)]) baseFsys =
      digC9 (baseService [("fnA", baseFn "fnA")]) baseFsys ∧
    digC9 svcMoved fsysMoved = digC9 (baseService [("fnA", baseFn "fnA")]) baseFsys ∧
    (digC9 (baseService [("fnA", baseFn "fnA")]) baseFsys).isSome = true ∧
    digC9 (baseService [("fnA", fnMem)]) baseFsys ≠
      digC9 (baseService [("fnA", baseFn "fnA")]) baseFsys := by
  refine ⟨fun _ _ _ _ _ => rfl, fun _ _ _ => rfl,
    fun p img lay m hm h => hm (congrArg SnapshotProps.MemorySize h),
    by decide, by decide, by decide, by decide⟩

/-- C9 witness: the exclusion conjuncts applied at a concrete property bag. -/
theorem c9_digest_sensitivity_witness :
    snapshotOfProps
        { propsProbe with Tags := some [("a", "b")], ReservedConcurrentExecutions := some 3 }
        false (.currentList []) =
      snapshotOfProps propsProbe false (.currentList []) :=
  c9_digest_sensitivity.1 propsProbe false (.currentList []) (some [("a", "b")]) (some 3)

/- ### Determinism of the version digest in the template state -/

theorem layerView_setRes (st : CompileState) (k : String) (r : Resource) (rid : String) :
    layerView (setRes st k r) rid =
      if rid = k then
        (match r.props with
         | .lambdaLayer lp => some (r.serverlessLayerName.getD "", lp)
         | _ => none)
      else layerView st rid := by
  unfold layerView
  rw [lookupRes_setRes]
  by_cases hk : rid = k
  · rw [if_pos hk, if_pos hk]
  · rw [if_neg hk, if_neg hk]

theorem layerView_setIamStatements_of (st : CompileState) (cur stmts : List IamStatement)
    (hi : iamStatementsOf st = some cur) (rid : String) :
    layerView (setIamStatements st stmts) rid = layerView st rid := by
  unfold layerView setIamStatements
  rw [lookupRes_updateRes]
  by_cases hk : rid = "IamRoleLambdaExecution"
  · rw [if_pos hk, hk]
    unfold iamStatementsOf at hi
    cases hl : lookupRes st "IamRoleLambdaExecution" with
    | none => simp [hl] at hi
    | some r =>
      simp only [hl] at hi
      cases hp : r.props <;> simp only [hp] at hi ⊢ <;> first | rfl | simp at hi
  · rw [if_neg hk]

theorem layerView_pushIam (st : CompileState) (s : IamStatement) (rid : String) :
    layerView (pushIam st s) rid = layerView st rid := by
  unfold pushIam
  cases hi : iamStatementsOf st with
  | none => rfl
  | some cur => exact layerView_setIamStatements_of st cur _ hi rid

theorem layerView_unionIam (st : CompileState) (s : IamStatement) (rid : String) :
    layerView (unionIam st s) rid = layerView st rid := by
  unfold unionIam
  cases hi : iamStatementsOf st with
  | none => rfl
  | some cur => exact layerView_setIamStatements_of st cur _ hi rid

theorem layerView_applyDeadLetterIam (st : CompileState) (d : Option ArnLike) (rid : String) :
    layerView (applyDeadLetterIam st d) rid = layerView st rid := by
  unfold applyDeadLetterIam
  split
  · exact layerView_pushIam st _ rid
  · rfl

theorem layerView_applyKmsIam (st : CompileState) (k : Option ArnLike) (rid : String) :
    layerView (applyKmsIam st k) rid = layerView st rid := by
  unfold applyKmsIam
  split
  · exact layerView_unionIam st _ rid
  · rfl

theorem layerView_applyTracingIam (st : CompileState) (t : Option String) (rid : String) :
    layerView (applyTracingIam st t) rid = layerView st rid := by
  unfold applyTracingIam
  split
  · exact layerView_unionIam st _ rid
  · rfl

theorem layerView_applyFsIam (st : CompileState) (c : FileSystemCfg) (rid : String) :
    layerView (applyFsIam st c) rid = layerView st rid :=
  layerView_pushIam st _ rid

theorem layerView_updateFnProps (st : CompileState) (k : String)
    (f : FunctionProperties → FunctionProperties) (rid : String) :
    layerView (updateFnProps st k f) rid = layerView st rid := by
  unfold layerView updateFnProps
  rw [lookupRes_updateRes]
  by_cases hk : rid = k
  · rw [if_pos hk]
    cases lookupRes st rid with
    | none => rfl
    | some r => cases hp : r.props <;> simp [hp]
  · rw [if_neg hk]

theorem layerView_versionState0 (opts : CompileOptions) (st : CompileState) (k rid : String) :
    layerView (versionState0 opts st k) rid = layerView st rid := by
  unfold versionState0
  split
  · exact layerView_updateFnProps st k _ rid
  · rfl

theorem layerView_buildPhase (svc : Service) (st : CompileState) (fnKey : String)
    (fd : FunctionDefinition) (ii : Option (String × String)) (stout : CompileState)
    (b : BuiltFunction) (h : buildPhase svc st fnKey fd ii = (stout, .ok b)) (rid : String) :
    layerView stout rid =
      if rid = getLambdaLogicalId fnKey then none else layerView st rid := by
  simp only [buildPhase] at h
  split at h
  · split at h
    · simp at h
    · simp only [Prod.mk.injEq, Except.ok.injEq] at h
      obtain ⟨hst, -⟩ := h
      subst hst
      unfold insertFunctionResource
      rw [layerView_setRes]
      by_cases hk : rid = getLambdaLogicalId fnKey
      · rw [if_pos hk, if_pos hk]
      · rw [if_neg hk, if_neg hk, layerView_applyFsIam, layerView_applyTracingIam,
          layerView_applyKmsIam, layerView_applyDeadLetterIam]
  · simp only [Prod.mk.injEq, Except.ok.injEq] at h
    obtain ⟨hst, -⟩ := h
    subst hst
    unfold insertFunctionResource
    rw [layerView_setRes]
    by_cases hk : rid = getLambdaLogicalId fnKey
    · rw [if_pos hk, if_pos hk]
    · rw [if_neg hk, if_neg hk, layerView_applyTracingIam,
        layerView_applyKmsIam, layerView_applyDeadLetterIam]

theorem extractLayerStep_eq (st : CompileState) (acc : List LayerSnapshotEntry)
    (l : LayerRef) :
    extractLayerStep st acc l =
      match l with
      | .arn _ => acc
      | .ref rid =>
        acc ++ ((layerView st rid).map
          (fun p => (⟨p.1, rid, p.2⟩ : LayerSnapshotEntry))).toList := by
  cases l with
  | arn s => rfl
  | ref rid =>
    unfold extractLayerStep layerView
    cases hl : lookupRes st rid with
    | none => simp [hl]
    | some cfg => cases hp : cfg.props <;> simp [hl, hp]

theorem extractLayerStep_congr (st1 st2 : CompileState)
    (h : ∀ rid, layerView st1 rid = layerView st2 rid) (acc : List LayerSnapshotEntry)
    (l : LayerRef) : extractLayerStep st1 acc l = extractLayerStep st2 acc l := by
  rw [extractLayerStep_eq, extractLayerStep_eq]
  cases l with
  | arn s => rfl
  | ref rid => simp only [h rid]

theorem extract_foldl_congr (st1 st2 : CompileState)
    (h : ∀ rid, layerView st1 rid = layerView st2 rid) :
    ∀ (ls : List LayerRef) (acc : List LayerSnapshotEntry),
      ls.foldl (extractLayerStep st1) acc = ls.foldl (extractLayerStep st2) acc
  | [], acc => rfl
  | l :: ls, acc => by
    simp only [List.foldl_cons]
    rw [extractLayerStep_congr st1 st2 h acc l]
    exact extract_foldl_congr st1 st2 h ls _

theorem extract_congr (props : FunctionProperties) (st1 st2 : CompileState)
    (h : ∀ rid, layerView st1 rid = layerView st2 rid) :
    extractLayerConfigurationsFromFunction props st1 =
      extractLayerConfigurationsFromFunction props st2 := by
  unfold extractLayerConfigurationsFromFunction
  cases props.Layers with
  | none => rfl
  | some ls => exact extract_foldl_congr st1 st2 h ls []

theorem versionApply_snd_indep (svc : Service) (st0 st0' : CompileState) (fnKey : String)
    (fd : FunctionDefinition) (c : String) (d : VersionDigest) :
    (versionApply svc st0 fnKey fd c d).2 = (versionApply svc st0' fnKey fd c d).2 := by
  simp only [versionApply]
  split
  · rfl
  · split
    · rfl
    · split <;> rfl

theorem versionPhase_digest_det (svc : Service) (opts : CompileOptions) (fsys : Fsys)
    (st1 st2 : CompileState) (fnKey : String) (fd : FunctionDefinition) (b : BuiltFunction)
    (hl : ∀ rid, layerView st1 rid = layerView st2 rid) :
    Except.map (fun v => (v.versionLogicalId, v.versionDigest))
        (versionPhase svc opts fsys st1 fnKey fd b).2 =
      Except.map (fun v => (v.versionLogicalId, v.versionDigest))
        (versionPhase svc opts fsys st2 fnKey fd b).2 := by
  simp only [versionPhase]
  have hext : extractLayerConfigurationsFromFunction (versionProps0 opts b)
      (versionState0 opts st1 (getLambdaLogicalId fnKey)) =
      extractLayerConfigurationsFromFunction (versionProps0 opts b)
      (versionState0 opts st2 (getLambdaLogicalId fnKey)) :=
    extract_congr _ _ _ (fun rid => by
      rw [layerView_versionState0, layerView_versionState0, hl rid])
  rw [hext]
  cases versionCompute svc opts fsys fd b (versionProps0 opts b)
      (extractLayerConfigurationsFromFunction (versionProps0 opts b)
        (versionState0 opts st2 (getLambdaLogicalId fnKey))) with
  | error e => rfl
  | ok p =>
    obtain ⟨c, d⟩ := p
    exact congrArg _ (versionApply_snd_indep svc
      (versionState0 opts st1 (getLambdaLogicalId fnKey))
      (versionState0 opts st2 (getLambdaLogicalId fnKey)) fnKey fd c d)

theorem versionAndPost_digest_det (svc : Service) (opts : CompileOptions) (fsys : Fsys)
    (st1 st2 : CompileState) (fnKey : String) (fd : FunctionDefinition) (b : BuiltFunction)
    (stF1 stF2 : CompileState) (o1 o2 : FnOut)
    (hl : ∀ rid, layerView st1 rid = layerView st2 rid)
    (h1 : versionAndPost svc opts fsys st1 fnKey fd b = (stF1, .ok o1))
    (h2 : versionAndPost svc opts fsys st2 fnKey fd b = (stF2, .ok o2)) :
    o1.versionDigest = o2.versionDigest ∧ o1.versionLogicalId = o2.versionLogicalId := by
  have hd := versionPhase_digest_det svc opts fsys st1 st2 fnKey fd b hl
  unfold versionAndPost at h1 h2
  split at h1
  · simp at h1
  · rename_i st1a v1 hv1
    split at h1
    · simp at h1
    · rename_i st1b hp1
      split at h2
      · rename_i st2a e hv2
        rw [hv1, hv2] at hd
        simp [Except.map] at hd
      · rename_i st2a v2 hv2
        split at h2
        · simp at h2
        · rename_i st2b hp2
          rw [hv1, hv2] at hd
          simp only [Except.map, Except.ok.injEq, Prod.mk.injEq] at hd
          simp only [Prod.mk.injEq, Except.ok.injEq] at h1 h2
          obtain ⟨-, ho1⟩ := h1
          obtain ⟨-, ho2⟩ := h2
          subst ho1
          subst ho2
          exact ⟨congrArg some hd.2, congrArg some hd.1⟩

theorem afterBuild_digest_det (svc : Service) (opts : CompileOptions) (fsys : Fsys)
    (st1 st2 : CompileState) (fnKey : String) (fd : FunctionDefinition) (b : BuiltFunction)
    (stF1 stF2 : CompileState) (o1 o2 : FnOut)
    (hl : ∀ rid, layerView st1 rid = layerView st2 rid)
    (h1 : afterBuild svc opts fsys st1 fnKey fd b = (stF1, .ok o1))
    (h2 : afterBuild svc opts fsys st2 fnKey fd b = (stF2, .ok o2)) :
    o1.versionDigest = o2.versionDigest ∧ o1.versionLogicalId = o2.versionLogicalId := by
  unfold afterBuild at h1 h2
  split at h1
  · rename_i hvc
    rw [if_pos hvc] at h2
    exact versionAndPost_digest_det svc opts fsys st1 st2 fnKey fd b stF1 stF2 o1 o2 hl h1 h2
  · rename_i hvc
    rw [if_neg hvc] at h2
    rw [postOnly_ok_fields svc st1 fnKey fd stF1 o1 h1,
      postOnly_ok_fields svc st2 fnKey fd stF2 o2 h2]
    exact ⟨rfl, rfl⟩

/-- C1: the version digest is deterministic in the configuration, the
options, the file system bytes and the layer entries the extraction reads
from the template.  Two compilations of the same function from any two
template states whose layer views agree — in particular a recompilation with
unchanged configuration and unchanged artifact bytes — return the same
VersionDigest and the same version resource logical id, so an unchanged
function never mints a spurious new version. -/
theorem c1_digest_idempotence (svc : Service) (opts : CompileOptions) (fsys : Fsys)
    (st1 st2 : CompileState) (fnKey : String)
    (h : ∀ rid, layerView st1 rid = layerView st2 rid)
    (stF1 stF2 : CompileState) (o1 o2 : FnOut)
    (h1 : compileFunction svc opts fsys st1 fnKey = (stF1, .ok o1))
    (h2 : compileFunction svc opts fsys st2 fnKey = (stF2, .ok o2)) :
    o1.versionDigest = o2.versionDigest ∧ o1.versionLogicalId = o2.versionLogicalId := by
  unfold compileFunction at h1 h2
  split at h1
  · simp at h1
  · rename_i s1 k1 hs1
    split at h2
    · simp at h2
    · rename_i s2 k2 hs2
      cases hg : getFunction svc fnKey with
      | none =>
        unfold compileFunctionSync at hs1
        simp only [hg] at hs1
        simp at hs1
      | some fd =>
        cases hv : validatePhase fd fnKey with
        | some e =>
          unfold compileFunctionSync at hs1
          simp only [hg, hv] at hs1
          simp at hs1
        | none =>
          rw [compileFunctionSync_eq_of svc st1 fnKey fd hg hv] at hs1
          rw [compileFunctionSync_eq_of svc st2 fnKey fd hg hv] at hs2
          split at hs1
          · -- image path
            rename_i him
            rw [if_pos him] at hs2
            simp only [Prod.mk.injEq, Except.ok.injEq] at hs1 hs2
            obtain ⟨hst1, hk1⟩ := hs1
            obtain ⟨hst2, hk2⟩ := hs2
            subst hst1
            subst hst2
            rw [← hk1] at h1
            rw [← hk2] at h2
            simp only [compileFunctionCont] at h1 h2
            cases hri : resolveImageUriAndSha svc fnKey with
            | error e =>
              simp only [hri] at h1
              simp at h1
            | ok info =>
              simp only [hri] at h1 h2
              split at h1
              · simp at h1
              · rename_i st1b b1 hb1
                split at h2
                · simp at h2
                · rename_i st2b b2 hb2
                  obtain ⟨hb1e, -⟩ := buildPhase_ok svc st1 fnKey fd (some info) st1b b1 hb1
                  obtain ⟨hb2e, -⟩ := buildPhase_ok svc st2 fnKey fd (some info) st2b b2 hb2
                  subst hb1e
                  subst hb2e
                  refine afterBuild_digest_det svc opts fsys st1b st2b fnKey fd _ stF1 stF2
                    o1 o2 ?_ h1 h2
                  intro rid
                  rw [layerView_buildPhase svc st1 fnKey fd (some info) st1b _ hb1 rid,
                    layerView_buildPhase svc st2 fnKey fd (some info) st2b _ hb2 rid]
                  by_cases hk : rid = getLambdaLogicalId fnKey
                  · rw [if_pos hk, if_pos hk]
                  · rw [if_neg hk, if_neg hk, h rid]
          · rename_i him
            rw [if_neg him] at hs2
            split at hs1
            · simp at hs1
            · rename_i st1b b1 hb1
              split at hs2
              · simp at hs2
              · rename_i st2b b2 hb2
                obtain ⟨hb1e, -⟩ := buildPhase_ok svc st1 fnKey fd none st1b b1 hb1
                obtain ⟨hb2e, -⟩ := buildPhase_ok svc st2 fnKey fd none st2b b2 hb2
                subst hb1e
                subst hb2e
                have hlb : ∀ rid, layerView st1b rid = layerView st2b rid := by
                  intro rid
                  rw [layerView_buildPhase svc st1 fnKey fd none st1b _ hb1 rid,
                    layerView_buildPhase svc st2 fnKey fd none st2b _ hb2 rid]
                  by_cases hk : rid = getLambdaLogicalId fnKey
                  · rw [if_pos hk, if_pos hk]
                  · rw [if_neg hk, if_neg hk, h rid]
                split at hs1
                · -- version branch
                  rename_i hvc
                  rw [if_pos hvc] at hs2
                  simp only [Prod.mk.injEq, Except.ok.injEq] at hs1 hs2
                  obtain ⟨hst1, hk1⟩ := hs1
                  obtain ⟨hst2, hk2⟩ := hs2
                  subst hst1
                  subst hst2
                  rw [← hk1] at h1
                  rw [← hk2] at h2
                  simp only [compileFunctionCont] at h1 h2
                  exact versionAndPost_digest_det svc opts fsys st1b st2b fnKey fd _ stF1
                    stF2 o1 o2 hlb h1 h2
                · -- plain branch
                  rename_i hvc
                  rw [if_neg hvc] at hs2
                  split at hs1
                  · simp at hs1
                  · rename_i st1c out1 hp1
                    split at hs2
                    · simp at hs2
                    · rename_i st2c out2 hp2
                      simp only [Prod.mk.injEq, Except.ok.injEq] at hs1 hs2
                      obtain ⟨hst1, hk1⟩ := hs1
                      obtain ⟨hst2, hk2⟩ := hs2
                      subst hst1
                      subst hst2
                      rw [← hk1] at h1
                      rw [← hk2] at h2
                      simp only [compileFunctionCont, Prod.mk.injEq, Except.ok.injEq]
                        at h1 h2
                      rw [← h1.2, ← h2.2, postOnly_ok_fields svc st1b fnKey fd st1c out1 hp1,
                        postOnly_ok_fields svc st2b fnKey fd st2c out2 hp2]
                      exact ⟨rfl, rfl⟩

/-- C1 witness: the same function compiled from the pristine template and
from a template whose default role already carries an unrelated permission
statement returns the same digest and version logical id. -/
theorem c1_digest_idempotence_witness :
    ∃ o1 o2,
      compileFunction (baseService [("fnA", baseFn "fnA")]) optsF baseFsys baseState "fnA" =
        ((compileFunction (baseService [("fnA", baseFn "fnA")]) optsF baseFsys baseState
          "fnA").1, .ok o1) ∧
      compileFunction (baseService [("fnA", baseFn "fnA")]) optsF baseFsys stSeeded "fnA" =
        ((compileFunction (baseService [("fnA", baseFn "fnA")]) optsF baseFsys stSeeded
          "fnA").1, .ok o2) ∧
      o1.versionDigest = o2.versionDigest ∧ o1.versionLogicalId = o2.versionLogicalId := by
  have hlv : ∀ rid, layerView baseState rid = layerView stSeeded rid := by
    intro rid
    unfold layerView lookupRes baseState stSeeded
    by_cases hk : rid = "IamRoleLambdaExecution" <;>
      simp [lookup_cons, hk, iamRoleResource]
  have heq1 : compileFunction (baseService [("fnA", baseFn "fnA")]) optsF baseFsys baseState
      "fnA" =
      ((compileFunction (baseService [("fnA", baseFn "fnA")]) optsF baseFsys baseState
        "fnA").1,
       .ok ((compileFunction (baseService [("fnA", baseFn "fnA")]) optsF baseFsys baseState
        "fnA").2.toOption.getD ⟨none, none, none⟩)) := by rfl
  have heq2 : compileFunction (baseService [("fnA", baseFn "fnA")]) optsF baseFsys stSeeded
      "fnA" =
      ((compileFunction (baseService [("fnA", baseFn "fnA")]) optsF baseFsys stSeeded
        "fnA").1,
       .ok ((compileFunction (baseService [("fnA", baseFn "fnA")]) optsF baseFsys stSeeded
        "fnA").2.toOption.getD ⟨none, none, none⟩)) := by rfl
  exact ⟨_, _, heq1, heq2,
    c1_digest_idempotence (baseService [("fnA", baseFn "fnA")]) optsF baseFsys baseState
      stSeeded "fnA" hlv _ _ _ _ heq1 heq2⟩

end OpenServerless
